import Mathlib

/-!
Verification of the Dots-and-Boxes game-state engine (src/dots.py, classes
Cell and Game) against its natural-language specification.

The embedding is a direct shallow translation of the Python source:
pure geometry and list scans become Lean functions on Int coordinates and
List-valued state; the mutation of shared Cell objects performed by
Cell.update_sides (which walks the list of all cell instances) becomes a
map over the game's cell list returning the updated list together with the
fill count.  Pixel constants come from src/config.py.
-/

namespace DotsBoxes

/-- config.py: gc.CELL_SIZE -/
def CELL_SIZE : Int := 80

/-- config.py: gc.PADDING -/
def PADDING : Int := 100

/-- config.py: gc.EDGE_THRESHOLD -/
def EDGE_THRESHOLD : Int := 10

/-- A pixel point (x, y), as passed for mouse positions. -/
abbrev Pt := Int × Int

/-- The two endpoint dots of an edge, exactly the value lists stored in
Cell.edges in dots.py. -/
abbrev Ends := Pt × Pt

/-- gc.COLORS entries used by the core (RGB triples from config.py). -/
def WHITE : Int × Int × Int := (255, 255, 255)

def RED : Int × Int × Int := (252, 91, 122)

def GREEN : Int × Int × Int := (0, 255, 0)

/-- One cell of the grid (class Cell in dots.py).  `r` and `c` are the pixel
coordinates passed to the constructor (top and left of the rect).  `sides`
is the list [LEFT, TOP, RIGHT, BOTTOM] of drawn-edge flags.  `text` is the
owner mark drawn in a completed cell, `color` its fill color.  The
`instances` attribute of the Python class is transient (it is overwritten
by set_instances before every use in Game.is_cell_clicked), so it is not
part of the state; the cell list is passed explicitly instead. -/
structure Cell where
  r : Int
  c : Int
  sides : List Bool
  color : Int × Int × Int
  text : Option String
deriving DecidableEq

/-- Cell.__init__: rect left. -/
def Cell.left (cl : Cell) : Int := cl.c

/-- Cell.__init__: rect top. -/
def Cell.top (cl : Cell) : Int := cl.r

/-- Cell.__init__: rect right = left + CELL_SIZE. -/
def Cell.right (cl : Cell) : Int := cl.c + CELL_SIZE

/-- Cell.__init__: rect bottom = top + CELL_SIZE. -/
def Cell.bottom (cl : Cell) : Int := cl.r + CELL_SIZE

/-- Cell.__init__: a freshly constructed cell (all sides False, white,
no text). -/
def Cell.mk0 (r c : Int) : Cell :=
  ⟨r, c, [false, false, false, false], WHITE, none⟩

/-- The keys of the Cell.edges dict, in insertion order
[left, top, right, bottom].  On grid cells the four keys are pairwise
distinct, so the association-list view used here coincides with the
Python dict. -/
def Cell.keys (cl : Cell) : List Int :=
  [cl.left, cl.top, cl.right, cl.bottom]

/-- The values of the Cell.edges dict, in the same order as `Cell.keys`:
the endpoint pair of each of the four edges. -/
def Cell.endsList (cl : Cell) : List Ends :=
  [((cl.left, cl.top), (cl.left, cl.bottom)),
   ((cl.left, cl.top), (cl.right, cl.top)),
   ((cl.right, cl.top), (cl.right, cl.bottom)),
   ((cl.left, cl.bottom), (cl.right, cl.bottom))]

/-- The endpoint pair of edge `i` of a cell. -/
def Cell.ends (cl : Cell) (i : Fin 4) : Ends :=
  cl.endsList.getD i.val ((0, 0), (0, 0))

/-- The canonical dict key an endpoint pair is stored under: a vertical
edge (both endpoints share x) is keyed by that x, a horizontal edge by the
shared y.  For every cell and index, edgeKey (ends i) = keys[i]. -/
def edgeKey (E : Ends) : Int :=
  if E.1.1 = E.2.1 then E.1.1 else E.1.2

/-- The body of the loop in Cell.update_sides for one cell of the
instances list: if the clicked key is among this cell's edge keys and the
clicked edge's endpoint pair is among this cell's edge values, the side at
the key's index is set; when the cell then has all four sides it is
credited (count 1), colored for the user, and marked with the user's
text. -/
def markCell (edgeValue : Int) (selfEnds : Ends) (user : String) (obj : Cell) :
    Cell × Nat :=
  if edgeValue ∈ obj.keys ∧ selfEnds ∈ obj.endsList then
    if (obj.sides.set (obj.keys.findIdx (fun k => k == edgeValue)) true).all
        (fun b => b) then
      ({ obj with
         sides := obj.sides.set (obj.keys.findIdx (fun k => k == edgeValue)) true,
         color := if user = "X" then GREEN else RED,
         text := some user }, 1)
    else
      ({ obj with
         sides := obj.sides.set (obj.keys.findIdx (fun k => k == edgeValue)) true },
       0)
  else (obj, 0)

/-- Cell.update_sides: update every cell of the instances list sharing the
clicked edge and return the new list with the number of cells that were
filled.  The Python loop mutates each instance independently (geometry is
never mutated, each iteration reads only its own sides), so a map is an
exact translation; `selfEnds` is the dict value self.edges[edge_value] of
the clicked cell. -/
def update_sides (cells : List Cell) (edgeValue : Int) (selfEnds : Ends)
    (user : String) : List Cell × Nat :=
  (cells.map (fun o => (markCell edgeValue selfEnds user o).1),
   (cells.map (fun o => (markCell edgeValue selfEnds user o).2)).sum)

/-- The edge_clicked chain of Cell.is_edge_click: the first of
left, right, top, bottom whose distance to the click is strictly below the
threshold, else 0 (Python uses 0 as the falsy no-edge marker). -/
def chainKey (cl : Cell) (m : Pt) : Int :=
  if |m.1 - cl.left| < EDGE_THRESHOLD then cl.left
  else if |m.1 - cl.right| < EDGE_THRESHOLD then cl.right
  else if |m.2 - cl.top| < EDGE_THRESHOLD then cl.top
  else if |m.2 - cl.bottom| < EDGE_THRESHOLD then cl.bottom
  else 0

/-- Cell.is_edge_click: resolve the click to an edge key; if one was found
and that side of the clicked cell is not yet drawn, run update_sides over
the instances list, claiming the turn for the next player unless at least
one cell was filled.  Returns (is_turn_next, n_cell_fill, updated cells). -/
def is_edge_click (cells : List Cell) (cl : Cell) (m : Pt)
    (isTurnNext : Bool) (user : String) : Bool × Nat × List Cell :=
  let ek := chainKey cl m
  if ek ≠ 0 then
    let sideIndex := cl.keys.findIdx (fun k => k == ek)
    if cl.sides.getD sideIndex false = false then
      let selfEnds := cl.endsList.getD sideIndex ((0, 0), (0, 0))
      let res := update_sides cells ek selfEnds user
      (if res.2 ≠ 0 then false else true, res.2, res.1)
    else (isTurnNext, 0, cells)
  else (isTurnNext, 0, cells)

/-- Game state (class Game in dots.py).  Scores and counters are the
attributes set by Game.reset; the grid data (cells_dim, the ROW_GRID and
COL_GRID pixel lines, total_cells, game_cells, grid_ready) is set by
Game.initialize_game / Game.set_cells. -/
structure Game where
  turn : Nat
  players : List String
  moves : List Bool
  player : String
  next_turn : Bool
  p1_score : Nat
  p2_score : Nat
  gameover : Bool
  cells_completed : Nat
  cells_dim : Int
  total_cells : Nat
  rowGrid : List Int
  colGrid : List Int
  game_cells : List Cell
  grid_ready : Bool
deriving DecidableEq

/-- Game.set_cells: rebuild game_cells as one fresh Cell per
(row line, column line) pair, dropping the last grid line of each axis. -/
def Game.set_cells (g : Game) : Game :=
  { g with
    game_cells :=
      (g.rowGrid.dropLast.map
        (fun r => g.colGrid.dropLast.map (fun c => Cell.mk0 r c))).flatten,
    grid_ready := true }

/-- Game.reset: re-seed the starting player (turn0 models the
random.randint(0, 1) draw), zero both scores and the completed count,
clear the gameover flag, and rebuild the grid when reset_grid is set. -/
def Game.reset (g : Game) (turn0 : Nat) (resetGrid : Bool) : Game :=
  let players := ["X", "O"]
  let g' : Game :=
    { g with
      turn := turn0,
      players := players,
      moves := (List.replicate players.length false).set turn0 true,
      player := players.getD turn0 "",
      next_turn := false,
      p1_score := 0,
      p2_score := 0,
      gameover := false,
      cells_completed := 0 }
  if resetGrid then g'.set_cells else g'

/-- ROW_GRID of Game.initialize_game: r * CELL_SIZE + 2 * (PADDING // 2)
for r in range(dim + 1). -/
def mkRowGrid (d : Int) : List Int :=
  (List.range (d + 1).toNat).map
    (fun (r : Nat) => (r : Int) * CELL_SIZE + 2 * (PADDING / 2))

/-- COL_GRID of Game.initialize_game: c * CELL_SIZE + PADDING // 2
for c in range(dim + 1). -/
def mkColGrid (d : Int) : List Int :=
  (List.range (d + 1).toNat).map
    (fun (c : Nat) => (c : Int) * CELL_SIZE + PADDING / 2)

/-- Game.initialize_game.  For dim ≤ -1 the grid-line lists are empty and
Python's max(ROW_GRID) raises ValueError, modelled as none; otherwise the
grid data is stored and set_cells builds the cells.  Note that no
dimension validation of any kind is performed by the source. -/
def Game.initGame (g : Game) (d : Int) : Option Game :=
  let rg := mkRowGrid d
  let cg := mkColGrid d
  if rg.isEmpty then none
  else
    some (Game.set_cells
      { g with cells_dim := d, rowGrid := rg, colGrid := cg,
               total_cells := (d * d).toNat })

/-- Game.__init__: id/ready flags aside, the constructor zeroes the grid
data and calls reset(False); turn0 models the random starting-player
draw. -/
def Game.init0 (turn0 : Nat) : Game :=
  Game.reset
    { turn := 0, players := [], moves := [], player := "",
      next_turn := false, p1_score := 0, p2_score := 0, gameover := false,
      cells_completed := 0, cells_dim := 0, total_cells := 0,
      rowGrid := [], colGrid := [], game_cells := [], grid_ready := false }
    turn0 false

/-- Game.is_cell_clicked: run the cell's edge-click handler over the
game's cell list (set_instances passes a copy of that list), then credit
any filled cells to the current player, recompute the gameover flag, and
advance the turn when the move did not fill a cell. -/
def Game.is_cell_clicked (g : Game) (cl : Cell) (m : Pt) : Game :=
  let res := is_edge_click g.game_cells cl m g.next_turn g.player
  let g1 : Game := { g with next_turn := res.1, game_cells := res.2.2 }
  let n := res.2.1
  let g2 : Game :=
    if n ≠ 0 then
      let ga : Game := { g1 with cells_completed := g1.cells_completed + n }
      let gb : Game :=
        if ga.player = "X" then { ga with p1_score := ga.p1_score + n }
        else { ga with p2_score := ga.p2_score + n }
      { gb with gameover := gb.cells_completed == gb.total_cells }
    else g1
  if g2.next_turn then
    let t := (g2.turn + 1) % g2.players.length
    { g2 with
      moves := (List.replicate g2.players.length false).set t true,
      turn := t,
      player := g2.players.getD t "",
      next_turn := false }
  else g2

/-- A cell is complete when all four sides are drawn (all(self.sides)). -/
def isComplete (cl : Cell) : Bool := cl.sides.all (fun b => b)

/-- Number of complete cells in a cell list. -/
def completeCount (cells : List Cell) : Nat := cells.countP isComplete

/-- A cell sits on the grid built by Game.set_cells: its top pixel is a
ROW_GRID line (100 + 80i) and its left pixel a COL_GRID line (50 + 80j).
All cells ever stored in game_cells satisfy this. -/
def ValidPos (cl : Cell) : Prop :=
  (∃ i : Nat, cl.r = 100 + 80 * i) ∧ (∃ j : Nat, cl.c = 50 + 80 * j)

/-- Well-formedness of a stored cell: grid position and exactly four side
flags, as established by Cell.__init__. -/
def ValidCell (cl : Cell) : Prop := ValidPos cl ∧ cl.sides.length = 4

lemma list_bool_four : ∀ l : List Bool, l.length = 4 →
    ∃ a b c d, l = [a, b, c, d]
  | [a, b, c, d], _ => ⟨a, b, c, d, rfl⟩
  | [], h | [_], h | [_, _], h | [_, _, _], h => by simp at h
  | _ :: _ :: _ :: _ :: _ :: _, h => by simp at h

lemma findIdx_four_0 (a b c d : Int) :
    [a, b, c, d].findIdx (fun k => k == a) = 0 := by
  simp [List.findIdx_cons]

lemma findIdx_four_1 (a b c d : Int) (h : b ≠ a) :
    [a, b, c, d].findIdx (fun k => k == b) = 1 := by
  simp [List.findIdx_cons, cond_eq_if, beq_iff_eq, h, Ne.symm h]

lemma findIdx_four_2 (a b c d : Int) (h1 : c ≠ a) (h2 : c ≠ b) :
    [a, b, c, d].findIdx (fun k => k == c) = 2 := by
  simp [List.findIdx_cons, cond_eq_if, beq_iff_eq, Ne.symm h1, Ne.symm h2]

lemma findIdx_four_3 (a b c d : Int) (h1 : d ≠ a) (h2 : d ≠ b) (h3 : d ≠ c) :
    [a, b, c, d].findIdx (fun k => k == d) = 3 := by
  simp [List.findIdx_cons, cond_eq_if, beq_iff_eq, Ne.symm h1, Ne.symm h2,
    Ne.symm h3]

lemma ends_zero (cl : Cell) :
    cl.ends 0 = ((cl.left, cl.top), (cl.left, cl.bottom)) := rfl

lemma ends_one (cl : Cell) :
    cl.ends 1 = ((cl.left, cl.top), (cl.right, cl.top)) := rfl

lemma ends_two (cl : Cell) :
    cl.ends 2 = ((cl.right, cl.top), (cl.right, cl.bottom)) := rfl

lemma ends_three (cl : Cell) :
    cl.ends 3 = ((cl.left, cl.bottom), (cl.right, cl.bottom)) := rfl

lemma keysD_zero (cl : Cell) : cl.keys.getD (0 : Nat) 0 = cl.left := rfl

lemma keysD_one (cl : Cell) : cl.keys.getD (1 : Nat) 0 = cl.top := rfl

lemma keysD_two (cl : Cell) : cl.keys.getD (2 : Nat) 0 = cl.right := rfl

lemma keysD_three (cl : Cell) : cl.keys.getD (3 : Nat) 0 = cl.bottom := rfl

lemma left_ne_right (cl : Cell) : cl.left ≠ cl.right := by
  simp only [Cell.left, Cell.right, CELL_SIZE]; omega

lemma top_ne_bottom (cl : Cell) : cl.top ≠ cl.bottom := by
  simp only [Cell.top, Cell.bottom, CELL_SIZE]; omega

/-- The dict key of edge i of any cell is recoverable from its endpoint
pair alone: edgeKey (ends i) = keys[i]. -/
lemma edgeKey_ends (cl : Cell) : ∀ i : Fin 4,
    edgeKey (cl.ends i) = cl.keys.getD i.val 0
  | ⟨0, _⟩ => by
      show edgeKey ((cl.left, cl.top), (cl.left, cl.bottom)) = cl.left
      unfold edgeKey
      exact if_pos rfl
  | ⟨1, _⟩ => by
      show edgeKey ((cl.left, cl.top), (cl.right, cl.top)) = cl.top
      unfold edgeKey
      exact if_neg (left_ne_right cl)
  | ⟨2, _⟩ => by
      show edgeKey ((cl.right, cl.top), (cl.right, cl.bottom)) = cl.right
      unfold edgeKey
      exact if_pos rfl
  | ⟨3, _⟩ => by
      show edgeKey ((cl.left, cl.bottom), (cl.right, cl.bottom)) = cl.bottom
      unfold edgeKey
      exact if_neg (left_ne_right cl)
  | ⟨n + 4, h⟩ => absurd h (by omega)

lemma ends_mem_endsList (cl : Cell) : ∀ j : Fin 4, cl.ends j ∈ cl.endsList
  | ⟨0, _⟩ => by
      show ((cl.left, cl.top), (cl.left, cl.bottom)) ∈ cl.endsList
      simp [Cell.endsList]
  | ⟨1, _⟩ => by
      show ((cl.left, cl.top), (cl.right, cl.top)) ∈ cl.endsList
      simp [Cell.endsList]
  | ⟨2, _⟩ => by
      show ((cl.right, cl.top), (cl.right, cl.bottom)) ∈ cl.endsList
      simp [Cell.endsList]
  | ⟨3, _⟩ => by
      show ((cl.left, cl.bottom), (cl.right, cl.bottom)) ∈ cl.endsList
      simp [Cell.endsList]
  | ⟨n + 4, h⟩ => absurd h (by omega)

lemma mem_endsList_iff (cl : Cell) (E : Ends) :
    E ∈ cl.endsList ↔ ∃ j : Fin 4, cl.ends j = E := by
  constructor
  · intro h
    simp only [Cell.endsList, List.mem_cons, List.not_mem_nil, or_false] at h
    rcases h with h | h | h | h
    · exact ⟨0, by rw [ends_zero, h]⟩
    · exact ⟨1, by rw [ends_one, h]⟩
    · exact ⟨2, by rw [ends_two, h]⟩
    · exact ⟨3, by rw [ends_three, h]⟩
  · rintro ⟨j, rfl⟩
    exact ends_mem_endsList cl j

/-- The four endpoint pairs of one cell are pairwise distinct. -/
lemma ends_inj (cl : Cell) : ∀ i j : Fin 4, cl.ends i = cl.ends j → i = j
  | ⟨0, _⟩, ⟨0, _⟩, _ => rfl
  | ⟨1, _⟩, ⟨1, _⟩, _ => rfl
  | ⟨2, _⟩, ⟨2, _⟩, _ => rfl
  | ⟨3, _⟩, ⟨3, _⟩, _ => rfl
  | ⟨0, _⟩, ⟨1, _⟩, h => by
      have h' : ((cl.left, cl.top), (cl.left, cl.bottom)) =
        ((cl.left, cl.top), (cl.right, cl.top)) := h
      exfalso
      simp only [Prod.mk.injEq, Cell.left, Cell.right, Cell.top,
        Cell.bottom, CELL_SIZE] at h'
      omega
  | ⟨0, _⟩, ⟨2, _⟩, h => by
      have h' : ((cl.left, cl.top), (cl.left, cl.bottom)) =
        ((cl.right, cl.top), (cl.right, cl.bottom)) := h
      exfalso
      simp only [Prod.mk.injEq, Cell.left, Cell.right, Cell.top,
        Cell.bottom, CELL_SIZE] at h'
      omega
  | ⟨0, _⟩, ⟨3, _⟩, h => by
      have h' : ((cl.left, cl.top), (cl.left, cl.bottom)) =
        ((cl.left, cl.bottom), (cl.right, cl.bottom)) := h
      exfalso
      simp only [Prod.mk.injEq, Cell.left, Cell.right, Cell.top,
        Cell.bottom, CELL_SIZE] at h'
      omega
  | ⟨1, _⟩, ⟨0, _⟩, h => by
      have h' : ((cl.left, cl.top), (cl.right, cl.top)) =
        ((cl.left, cl.top), (cl.left, cl.bottom)) := h
      exfalso
      simp only [Prod.mk.injEq, Cell.left, Cell.right, Cell.top,
        Cell.bottom, CELL_SIZE] at h'
      omega
  | ⟨1, _⟩, ⟨2, _⟩, h => by
      have h' : ((cl.left, cl.top), (cl.right, cl.top)) =
        ((cl.right, cl.top), (cl.right, cl.bottom)) := h
      exfalso
      simp only [Prod.mk.injEq, Cell.left, Cell.right, Cell.top,
        Cell.bottom, CELL_SIZE] at h'
      omega
  | ⟨1, _⟩, ⟨3, _⟩, h => by
      have h' : ((cl.left, cl.top), (cl.right, cl.top)) =
        ((cl.left, cl.bottom), (cl.right, cl.bottom)) := h
      exfalso
      simp only [Prod.mk.injEq, Cell.left, Cell.right, Cell.top,
        Cell.bottom, CELL_SIZE] at h'
      omega
  | ⟨2, _⟩, ⟨0, _⟩, h => by
      have h' : ((cl.right, cl.top), (cl.right, cl.bottom)) =
        ((cl.left, cl.top), (cl.left, cl.bottom)) := h
      exfalso
      simp only [Prod.mk.injEq, Cell.left, Cell.right, Cell.top,
        Cell.bottom, CELL_SIZE] at h'
      omega
  | ⟨2, _⟩, ⟨1, _⟩, h => by
      have h' : ((cl.right, cl.top), (cl.right, cl.bottom)) =
        ((cl.left, cl.top), (cl.right, cl.top)) := h
      exfalso
      simp only [Prod.mk.injEq, Cell.left, Cell.right, Cell.top,
        Cell.bottom, CELL_SIZE] at h'
      omega
  | ⟨2, _⟩, ⟨3, _⟩, h => by
      have h' : ((cl.right, cl.top), (cl.right, cl.bottom)) =
        ((cl.left, cl.bottom), (cl.right, cl.bottom)) := h
      exfalso
      simp only [Prod.mk.injEq, Cell.left, Cell.right, Cell.top,
        Cell.bottom, CELL_SIZE] at h'
      omega
  | ⟨3, _⟩, ⟨0, _⟩, h => by
      have h' : ((cl.left, cl.bottom), (cl.right, cl.bottom)) =
        ((cl.left, cl.top), (cl.left, cl.bottom)) := h
      exfalso
      simp only [Prod.mk.injEq, Cell.left, Cell.right, Cell.top,
        Cell.bottom, CELL_SIZE] at h'
      omega
  | ⟨3, _⟩, ⟨1, _⟩, h => by
      have h' : ((cl.left, cl.bottom), (cl.right, cl.bottom)) =
        ((cl.left, cl.top), (cl.right, cl.top)) := h
      exfalso
      simp only [Prod.mk.injEq, Cell.left, Cell.right, Cell.top,
        Cell.bottom, CELL_SIZE] at h'
      omega
  | ⟨3, _⟩, ⟨2, _⟩, h => by
      have h' : ((cl.left, cl.bottom), (cl.right, cl.bottom)) =
        ((cl.right, cl.top), (cl.right, cl.bottom)) := h
      exfalso
      simp only [Prod.mk.injEq, Cell.left, Cell.right, Cell.top,
        Cell.bottom, CELL_SIZE] at h'
      omega
  | ⟨n + 4, h⟩, _, _ => absurd h (by omega)
  | _, ⟨n + 4, h⟩, _ => absurd h (by omega)

lemma keys_getD_mem (cl : Cell) : ∀ i : Fin 4, cl.keys.getD i.val 0 ∈ cl.keys
  | ⟨0, _⟩ => by show cl.left ∈ cl.keys; simp [Cell.keys]
  | ⟨1, _⟩ => by show cl.top ∈ cl.keys; simp [Cell.keys]
  | ⟨2, _⟩ => by show cl.right ∈ cl.keys; simp [Cell.keys]
  | ⟨3, _⟩ => by show cl.bottom ∈ cl.keys; simp [Cell.keys]
  | ⟨n + 4, h⟩ => absurd h (by omega)

/-- On a grid cell the four dict keys are pairwise distinct, so .index
finds the key's own position. -/
lemma findIdx_keys (cl : Cell) (hv : ValidPos cl) (j : Fin 4) :
    cl.keys.findIdx (fun k => k == cl.keys.getD j.val 0) = j.val := by
  obtain ⟨⟨i0, hr⟩, ⟨j0, hc⟩⟩ := hv
  have h1 : cl.top ≠ cl.left := by
    simp only [Cell.top, Cell.left]; omega
  have h2 : cl.right ≠ cl.left := by
    simp only [Cell.right, Cell.left, CELL_SIZE]; omega
  have h3 : cl.right ≠ cl.top := by
    simp only [Cell.right, Cell.top, CELL_SIZE]; omega
  have h4 : cl.bottom ≠ cl.left := by
    simp only [Cell.bottom, Cell.left, CELL_SIZE]; omega
  have h5 : cl.bottom ≠ cl.top := by
    simp only [Cell.bottom, Cell.top, CELL_SIZE]; omega
  have h6 : cl.bottom ≠ cl.right := by
    simp only [Cell.bottom, Cell.right, Cell.left, Cell.top, CELL_SIZE]
    omega
  match j with
  | ⟨0, _⟩ => exact findIdx_four_0 cl.left cl.top cl.right cl.bottom
  | ⟨1, _⟩ => exact findIdx_four_1 cl.left cl.top cl.right cl.bottom h1
  | ⟨2, _⟩ => exact findIdx_four_2 cl.left cl.top cl.right cl.bottom h2 h3
  | ⟨3, _⟩ => exact findIdx_four_3 cl.left cl.top cl.right cl.bottom h4 h5 h6
  | ⟨n + 4, h⟩ => exact absurd h (by omega)

lemma getD_set (l : List Bool) (i j : Nat) (hi : i < l.length) :
    (l.set i true).getD j false = if j = i then true else l.getD j false := by
  simp only [List.getD_eq_getElem?_getD, List.getElem?_set]
  rcases eq_or_ne j i with rfl | hne
  · simp [hi]
  · simp [hne, Ne.symm hne]

lemma getD_set_true (l : List Bool) (i j : Nat)
    (h : l.getD j false = true) : (l.set i true).getD j false = true := by
  rcases Nat.lt_or_ge i l.length with hi | hi
  · rw [getD_set l i j hi]
    split
    · rfl
    · exact h
  · rw [List.set_eq_of_length_le hi]
    exact h

/-- A cell whose edge dict does not contain the clicked edge (no index has
the clicked endpoint pair) is left untouched by the update_sides loop
body. -/
lemma markCell_of_not_matched (obj : Cell) (E : Ends) (u : String)
    (h : ¬ ∃ j : Fin 4, obj.ends j = E) :
    markCell (edgeKey E) E u obj = (obj, 0) := by
  unfold markCell
  rw [if_neg]
  rintro ⟨-, h2⟩
  exact h ((mem_endsList_iff obj E).1 h2)

/-- A grid cell whose edge j has the clicked endpoint pair gets side j
set; it is credited exactly when that makes all four sides true. -/
lemma markCell_of_matched (obj : Cell) (E : Ends) (u : String)
    (hv : ValidPos obj) (j : Fin 4) (hj : obj.ends j = E) :
    markCell (edgeKey E) E u obj =
      (if (obj.sides.set j.val true).all (fun b => b) then
        ({ obj with sides := obj.sides.set j.val true,
                    color := if u = "X" then GREEN else RED,
                    text := some u }, 1)
      else ({ obj with sides := obj.sides.set j.val true }, 0)) := by
  have hkey : edgeKey E = obj.keys.getD j.val 0 := by
    rw [← hj, edgeKey_ends]
  have hfi : obj.keys.findIdx (fun k => k == edgeKey E) = j.val := by
    rw [hkey]
    exact findIdx_keys obj hv j
  unfold markCell
  rw [if_pos ⟨by rw [hkey]; exact keys_getD_mem obj j,
    (mem_endsList_iff obj E).2 ⟨j, hj⟩⟩, hfi]

lemma markCell_fst_r (k : Int) (E : Ends) (u : String) (obj : Cell) :
    (markCell k E u obj).1.r = obj.r := by
  unfold markCell
  split_ifs <;> rfl

lemma markCell_fst_c (k : Int) (E : Ends) (u : String) (obj : Cell) :
    (markCell k E u obj).1.c = obj.c := by
  unfold markCell
  split_ifs <;> rfl

lemma markCell_fst_length (k : Int) (E : Ends) (u : String) (obj : Cell) :
    (markCell k E u obj).1.sides.length = obj.sides.length := by
  unfold markCell
  split_ifs <;> simp

/-- Geometry is untouched, hence so are the edge keys and endpoints. -/
lemma markCell_ends (k : Int) (E : Ends) (u : String) (obj : Cell)
    (i : Fin 4) : (markCell k E u obj).1.ends i = obj.ends i := by
  have hr := markCell_fst_r k E u obj
  have hc := markCell_fst_c k E u obj
  unfold Cell.ends Cell.endsList Cell.left Cell.right Cell.top Cell.bottom
  rw [hr, hc]

lemma markCell_text_snd (k : Int) (E : Ends) (u : String) (obj : Cell) :
    ((markCell k E u obj).2 = 1 → (markCell k E u obj).1.text = some u) ∧
    ((markCell k E u obj).2 = 0 → (markCell k E u obj).1.text = obj.text) := by
  unfold markCell
  split_ifs <;> simp

lemma markCell_snd_cases (k : Int) (E : Ends) (u : String) (obj : Cell) :
    (markCell k E u obj).2 = 0 ∨ (markCell k E u obj).2 = 1 := by
  unfold markCell
  split_ifs <;> simp

lemma markCell_mono (k : Int) (E : Ends) (u : String) (obj : Cell)
    (jx : Nat) (h : obj.sides.getD jx false = true) :
    (markCell k E u obj).1.sides.getD jx false = true := by
  unfold markCell
  split_ifs <;> first
    | exact h
    | exact getD_set_true obj.sides _ jx h

/-- Effect of the loop body on side jx of a grid cell: the side whose
endpoints are the clicked edge's becomes true, every other side keeps its
value. -/
lemma markCell_sides_getD (obj : Cell) (E : Ends) (u : String)
    (hv : ValidPos obj) (hl : obj.sides.length = 4) (jx : Fin 4) :
    (markCell (edgeKey E) E u obj).1.sides.getD jx.val false =
      if obj.ends jx = E then true else obj.sides.getD jx.val false := by
  by_cases hm : ∃ j : Fin 4, obj.ends j = E
  · obtain ⟨j, hj⟩ := hm
    have hlt : j.val < obj.sides.length := by rw [hl]; exact j.isLt
    rw [markCell_of_matched obj E u hv j hj]
    by_cases hx : obj.ends jx = E
    · have hxj : jx = j := ends_inj obj jx j (hx.trans hj.symm)
      subst hxj
      rw [if_pos hx]
      split
      · show (obj.sides.set jx.val true).getD jx.val false = true
        rw [getD_set obj.sides jx.val jx.val hlt, if_pos rfl]
      · show (obj.sides.set jx.val true).getD jx.val false = true
        rw [getD_set obj.sides jx.val jx.val hlt, if_pos rfl]
    · have hne : jx.val ≠ j.val := by
        intro hh
        exact hx ((Fin.ext hh : jx = j) ▸ hj)
      rw [if_neg hx]
      split
      · show (obj.sides.set j.val true).getD jx.val false =
          obj.sides.getD jx.val false
        rw [getD_set obj.sides j.val jx.val hlt, if_neg hne]
      · show (obj.sides.set j.val true).getD jx.val false =
          obj.sides.getD jx.val false
        rw [getD_set obj.sides j.val jx.val hlt, if_neg hne]
  · rw [markCell_of_not_matched obj E u hm,
      if_neg (fun hE => hm ⟨jx, hE⟩)]

/-- On a matched grid cell the credit is 1 exactly when the cell ends up
complete. -/
lemma markCell_complete_iff (obj : Cell) (E : Ends) (u : String)
    (hv : ValidPos obj) (j : Fin 4) (hj : obj.ends j = E) :
    (isComplete (markCell (edgeKey E) E u obj).1 = true ↔
      (markCell (edgeKey E) E u obj).2 = 1) := by
  rw [markCell_of_matched obj E u hv j hj]
  split
  · next hall => simp [isComplete, hall]
  · next hall => simp [isComplete, hall]

/-- Counting step for one cell: when a matched cell cannot already be
complete, the completion indicator rises by exactly the credit. -/
lemma markCell_count (obj : Cell) (E : Ends) (u : String)
    (hv : ValidPos obj)
    (hnc : (∃ j : Fin 4, obj.ends j = E) → isComplete obj = false) :
    (if isComplete (markCell (edgeKey E) E u obj).1 then 1 else 0)
      = (if isComplete obj then 1 else 0)
        + (markCell (edgeKey E) E u obj).2 := by
  by_cases hm : ∃ j : Fin 4, obj.ends j = E
  · obtain ⟨j, hj⟩ := hm
    rw [hnc ⟨j, hj⟩]
    have hiff := markCell_complete_iff obj E u hv j hj
    rcases markCell_snd_cases (edgeKey E) E u obj with h0 | h1
    · rw [h0]
      have : isComplete (markCell (edgeKey E) E u obj).1 = false := by
        cases hb : isComplete (markCell (edgeKey E) E u obj).1
        · rfl
        · rw [hiff.1 hb] at h0
          exact absurd h0 (by omega)
      rw [this]
      simp
    · rw [h1, hiff.2 h1]
      simp
  · rw [markCell_of_not_matched obj E u hm]
    simp

lemma isComplete_getD (b : Cell) (hl : b.sides.length = 4)
    (hcomp : isComplete b = true) (jx : Fin 4) :
    b.sides.getD jx.val false = true := by
  obtain ⟨x0, x1, x2, x3, hs⟩ := list_bool_four b.sides hl
  unfold isComplete at hcomp
  rw [hs] at hcomp ⊢
  simp only [List.all_cons, List.all_nil, Bool.and_true, Bool.and_eq_true]
    at hcomp
  obtain ⟨h0, h1, h2, h3⟩ := hcomp
  match jx with
  | ⟨0, _⟩ => exact h0
  | ⟨1, _⟩ => exact h1
  | ⟨2, _⟩ => exact h2
  | ⟨3, _⟩ => exact h3
  | ⟨n + 4, h⟩ => exact absurd h (by omega)

lemma isComplete_of_getD (b : Cell) (hl : b.sides.length = 4)
    (h : ∀ jx : Fin 4, b.sides.getD jx.val false = true) :
    isComplete b = true := by
  obtain ⟨x0, x1, x2, x3, hs⟩ := list_bool_four b.sides hl
  have h0 : x0 = true := by
    have hh := h ⟨0, by omega⟩
    rw [hs] at hh
    exact hh
  have h1 : x1 = true := by
    have hh := h ⟨1, by omega⟩
    rw [hs] at hh
    exact hh
  have h2 : x2 = true := by
    have hh := h ⟨2, by omega⟩
    rw [hs] at hh
    exact hh
  have h3 : x3 = true := by
    have hh := h ⟨3, by omega⟩
    rw [hs] at hh
    exact hh
  unfold isComplete
  rw [hs]
  simp [h0, h1, h2, h3]

/-- update_sides over a list of grid cells, none of which sharing the
clicked edge is already complete, raises the complete-cell count by
exactly the returned fill count. -/
lemma update_sides_count (cells : List Cell) (E : Ends) (u : String)
    (Hv : ∀ b ∈ cells, ValidPos b)
    (Hnc : ∀ b ∈ cells, (∃ j : Fin 4, b.ends j = E) → isComplete b = false) :
    completeCount (update_sides cells (edgeKey E) E u).1
      = completeCount cells + (update_sides cells (edgeKey E) E u).2 := by
  induction cells with
  | nil => rfl
  | cons hd tl ih =>
    have hhd := markCell_count hd E u (Hv hd (by simp)) (Hnc hd (by simp))
    have ihh := ih (fun b hb => Hv b (by simp [hb]))
      (fun b hb => Hnc b (by simp [hb]))
    simp only [update_sides, completeCount, List.map_cons, List.sum_cons,
      List.countP_cons] at ihh hhd ⊢
    omega

/-- The edge keys of a grid cell are all nonzero, so a resolved edge key
never collides with the Python falsy marker 0. -/
lemma keys_ne_zero (cl : Cell) (hv : ValidPos cl) (i : Fin 4) :
    cl.keys.getD i.val 0 ≠ 0 := by
  obtain ⟨⟨i0, hr⟩, ⟨j0, hc⟩⟩ := hv
  match i with
  | ⟨0, _⟩ =>
    show cl.left ≠ 0
    simp only [Cell.left]
    omega
  | ⟨1, _⟩ =>
    show cl.top ≠ 0
    simp only [Cell.top]
    omega
  | ⟨2, _⟩ =>
    show cl.right ≠ 0
    simp only [Cell.right, Cell.left, CELL_SIZE]
    omega
  | ⟨3, _⟩ =>
    show cl.bottom ≠ 0
    simp only [Cell.bottom, Cell.top, CELL_SIZE]
    omega
  | ⟨n + 4, h⟩ => exact absurd h (by omega)

/-- The edge_clicked chain either finds no edge (0) or returns one of the
four dict keys of the clicked cell. -/
lemma chainKey_cases (cl : Cell) (m : Pt) :
    chainKey cl m = 0 ∨ ∃ i : Fin 4, chainKey cl m = cl.keys.getD i.val 0 := by
  unfold chainKey
  split_ifs
  · exact Or.inr ⟨0, (keysD_zero cl).symm⟩
  · exact Or.inr ⟨2, (keysD_two cl).symm⟩
  · exact Or.inr ⟨1, (keysD_one cl).symm⟩
  · exact Or.inr ⟨3, (keysD_three cl).symm⟩
  · exact Or.inl rfl

lemma is_edge_click_of_chain_zero (cells : List Cell) (cl : Cell) (m : Pt)
    (b : Bool) (u : String) (h : chainKey cl m = 0) :
    is_edge_click cells cl m b u = (b, 0, cells) := by
  unfold is_edge_click
  simp [h]

lemma is_edge_click_of_marked (cells : List Cell) (cl : Cell) (m : Pt)
    (b : Bool) (u : String)
    (h : cl.sides.getD
      (cl.keys.findIdx (fun k => k == chainKey cl m)) false = true) :
    is_edge_click cells cl m b u = (b, 0, cells) := by
  by_cases hz : chainKey cl m = 0
  · exact is_edge_click_of_chain_zero cells cl m b u hz
  · have hcond : ¬ (cl.sides.getD
        (cl.keys.findIdx (fun k => k == chainKey cl m)) false = false) := by
      rw [h]
      simp
    unfold is_edge_click
    rw [if_pos hz, if_neg hcond]

/-- An accepted click: the chain resolved side i of a grid cell and that
side is not yet drawn; the result is exactly the update_sides outcome for
edge i. -/
lemma is_edge_click_accepted (cells : List Cell) (cl : Cell) (m : Pt)
    (b : Bool) (u : String) (hv : ValidPos cl) (i : Fin 4)
    (hchain : chainKey cl m = cl.keys.getD i.val 0)
    (hunmarked : cl.sides.getD i.val false = false) :
    is_edge_click cells cl m b u =
      (if (update_sides cells (edgeKey (cl.ends i)) (cl.ends i) u).2 ≠ 0
        then false else true,
       (update_sides cells (edgeKey (cl.ends i)) (cl.ends i) u).2,
       (update_sides cells (edgeKey (cl.ends i)) (cl.ends i) u).1) := by
  have hne : chainKey cl m ≠ 0 := by
    rw [hchain]
    exact keys_ne_zero cl hv i
  have hfi : cl.keys.findIdx (fun k => k == chainKey cl m) = i.val := by
    rw [hchain]
    exact findIdx_keys cl hv i
  have hek : chainKey cl m = edgeKey (cl.ends i) := by
    rw [hchain, edgeKey_ends]
  unfold is_edge_click
  rw [if_pos hne, hfi, if_pos hunmarked, hek]
  rfl

/-- A rejected click (no edge resolved, or the resolved side already
drawn) leaves the whole game state unchanged when next_turn is clear, as
it is between moves. -/
lemma is_cell_clicked_of_rejected (g : Game) (cl : Cell) (m : Pt)
    (hnt : g.next_turn = false)
    (h : is_edge_click g.game_cells cl m g.next_turn g.player
      = (g.next_turn, 0, g.game_cells)) :
    g.is_cell_clicked cl m = g := by
  rcases g with ⟨tn, pl, mv, p, nt, s1, s2, go, cc, cd, tc, rg, cg, gcs, gr⟩
  dsimp only at hnt h
  subst hnt
  unfold Game.is_cell_clicked
  dsimp only
  rw [h]
  rfl

/-- A move that fills no cell: cells updated, turn passed on. -/
lemma is_cell_clicked_of_nofill (g : Game) (cl : Cell) (m : Pt)
    (cells' : List Cell)
    (h : is_edge_click g.game_cells cl m g.next_turn g.player
      = (true, 0, cells')) :
    g.is_cell_clicked cl m =
      { g with game_cells := cells', next_turn := false,
               turn := (g.turn + 1) % g.players.length,
               player := g.players.getD ((g.turn + 1) % g.players.length) "",
               moves := (List.replicate g.players.length false).set
                 ((g.turn + 1) % g.players.length) true } := by
  rcases g with ⟨tn, pl, mv, p, nt, s1, s2, go, cc, cd, tc, rg, cg, gcs, gr⟩
  dsimp only at h
  unfold Game.is_cell_clicked
  dsimp only
  rw [h]
  rfl

/-- A move that fills n > 0 cells: cells updated, the current player is
credited n points, the completed count rises by n, the gameover flag is
recomputed, and the turn is kept. -/
lemma is_cell_clicked_of_fill (g : Game) (cl : Cell) (m : Pt) (n : Nat)
    (cells' : List Cell) (hn : n ≠ 0)
    (h : is_edge_click g.game_cells cl m g.next_turn g.player
      = (false, n, cells')) :
    g.is_cell_clicked cl m =
      { g with game_cells := cells', next_turn := false,
               cells_completed := g.cells_completed + n,
               p1_score :=
                 if g.player = "X" then g.p1_score + n else g.p1_score,
               p2_score :=
                 if g.player = "X" then g.p2_score else g.p2_score + n,
               gameover := (g.cells_completed + n == g.total_cells) } := by
  rcases g with ⟨tn, pl, mv, p, nt, s1, s2, go, cc, cd, tc, rg, cg, gcs, gr⟩
  dsimp only at h
  unfold Game.is_cell_clicked
  dsimp only
  rw [h]
  dsimp only
  rw [if_pos hn]
  split_ifs <;> first | contradiction | simp

/-- Cells that share a physical edge (same endpoint pair) agree on its
drawn flag — the consistency property kept up by the update_sides
propagation. -/
def AgreeCells (cells : List Cell) : Prop :=
  ∀ a ∈ cells, ∀ b ∈ cells, ∀ i j : Fin 4,
    a.ends i = b.ends j →
      a.sides.getD i.val false = b.sides.getD j.val false

/-- Owner discipline of one cell list: text is set exactly on complete
cells, and only ever to one of the two player marks. -/
def TextOK (cells : List Cell) : Prop :=
  ∀ cl ∈ cells,
    ((∃ u, cl.text = some u) ↔ isComplete cl = true) ∧
    (∀ u, cl.text = some u → u = "X" ∨ u = "O")

/-- State invariants maintained by the engine from board construction on,
across arbitrary sequences of clicks and resets. -/
structure Inv (g : Game) : Prop where
  players_eq : g.players = ["X", "O"]
  turn_lt : g.turn < 2
  player_eq : g.player = g.players.getD g.turn ""
  next_false : g.next_turn = false
  score_sum : g.p1_score + g.p2_score = g.cells_completed
  go_iff : g.gameover = (g.cells_completed == g.total_cells)
  count_le : g.cells_completed ≤ completeCount g.game_cells
  len_eq : g.game_cells.length = g.total_cells
  grids_row : g.rowGrid = mkRowGrid g.cells_dim
  grids_col : g.colGrid = mkColGrid g.cells_dim
  total_eq : g.total_cells = (g.cells_dim * g.cells_dim).toNat
  dim_pos : 1 ≤ g.cells_dim
  cells_ok : ∀ cl ∈ g.game_cells, ValidCell cl
  agree : AgreeCells g.game_cells
  text_ok : TextOK g.game_cells

lemma Inv.total_pos {g : Game} (hI : Inv g) : 1 ≤ g.total_cells := by
  have h1 := hI.total_eq
  have h2 := hI.dim_pos
  have h3 : 1 ≤ g.cells_dim * g.cells_dim :=
    le_trans h2 (le_mul_of_one_le_left (by omega) h2)
  omega

lemma Inv.player_mem {g : Game} (hI : Inv g) :
    g.player = "X" ∨ g.player = "O" := by
  have ht := hI.turn_lt
  rw [hI.player_eq, hI.players_eq]
  match htn : g.turn with
  | 0 => left; rfl
  | 1 => right; rfl
  | n + 2 => rw [htn] at ht; omega

lemma mk0_sides_getD (r c : Int) (j : Nat) :
    (Cell.mk0 r c).sides.getD j false = false := by
  match j with
  | 0 => rfl
  | 1 => rfl
  | 2 => rfl
  | 3 => rfl
  | n + 4 => rfl

lemma mk0_not_complete (r c : Int) : isComplete (Cell.mk0 r c) = false := rfl

lemma set_cells_mem (g : Game) (cl : Cell) :
    cl ∈ (Game.set_cells g).game_cells ↔
      ∃ r ∈ g.rowGrid.dropLast, ∃ c ∈ g.colGrid.dropLast,
        cl = Cell.mk0 r c := by
  unfold Game.set_cells
  simp only [List.mem_flatten, List.mem_map]
  constructor
  · rintro ⟨l, ⟨r, hr, rfl⟩, hcl⟩
    obtain ⟨c, hc, rfl⟩ := List.mem_map.1 hcl
    exact ⟨r, hr, c, hc, rfl⟩
  · rintro ⟨r, hr, c, hc, rfl⟩
    exact ⟨g.colGrid.dropLast.map (fun c => Cell.mk0 r c), ⟨r, hr, rfl⟩,
      List.mem_map.2 ⟨c, hc, rfl⟩⟩

lemma set_cells_length (g : Game) :
    (Game.set_cells g).game_cells.length =
      g.rowGrid.dropLast.length * g.colGrid.dropLast.length := by
  unfold Game.set_cells
  simp only [List.length_flatten, List.map_map]
  have : (g.rowGrid.dropLast.map
      (fun r => (g.colGrid.dropLast.map (fun c => Cell.mk0 r c)).length))
      = g.rowGrid.dropLast.map (fun _ => g.colGrid.dropLast.length) := by
    simp
  rw [Function.comp_def]
  simp [List.map_const']

lemma mem_mkRowGrid_dropLast (d x : Int)
    (hx : x ∈ (mkRowGrid d).dropLast) : ∃ i : Nat, x = 100 + 80 * i := by
  have hx' := List.mem_of_mem_dropLast hx
  unfold mkRowGrid at hx'
  obtain ⟨r, -, rfl⟩ := List.mem_map.1 hx'
  refine ⟨r, ?_⟩
  simp only [CELL_SIZE, PADDING]
  omega

lemma mem_mkColGrid_dropLast (d x : Int)
    (hx : x ∈ (mkColGrid d).dropLast) : ∃ j : Nat, x = 50 + 80 * j := by
  have hx' := List.mem_of_mem_dropLast hx
  unfold mkColGrid at hx'
  obtain ⟨c, -, rfl⟩ := List.mem_map.1 hx'
  refine ⟨c, ?_⟩
  simp only [CELL_SIZE, PADDING]
  omega

lemma mkRowGrid_dropLast_length (d : Int) (hd : 0 ≤ d) :
    (mkRowGrid d).dropLast.length = d.toNat := by
  unfold mkRowGrid
  simp only [List.length_dropLast, List.length_map, List.length_range]
  omega

lemma mkColGrid_dropLast_length (d : Int) (hd : 0 ≤ d) :
    (mkColGrid d).dropLast.length = d.toNat := by
  unfold mkColGrid
  simp only [List.length_dropLast, List.length_map, List.length_range]
  omega

lemma toNat_mul_self (d : Int) (h0 : 0 ≤ d) :
    d.toNat * d.toNat = (d * d).toNat := by
  obtain ⟨n, rfl⟩ := Int.eq_ofNat_of_zero_le h0
  rw [← Int.natCast_mul, Int.toNat_ofNat, Int.toNat_ofNat]

/-- Everything Game.set_cells establishes about the fresh cells, given
grid lines as built by initialize_game. -/
lemma set_cells_fresh (g : Game)
    (hr : g.rowGrid = mkRowGrid g.cells_dim)
    (hc : g.colGrid = mkColGrid g.cells_dim) :
    ∀ cl ∈ (Game.set_cells g).game_cells,
      ValidCell cl ∧ cl.text = none ∧ isComplete cl = false ∧
        (∀ j : Nat, cl.sides.getD j false = false) := by
  intro cl hcl
  obtain ⟨r, hrm, c, hcm, rfl⟩ := (set_cells_mem g cl).1 hcl
  rw [hr] at hrm
  rw [hc] at hcm
  obtain ⟨i, rfl⟩ := mem_mkRowGrid_dropLast _ _ hrm
  obtain ⟨j, rfl⟩ := mem_mkColGrid_dropLast _ _ hcm
  exact ⟨⟨⟨⟨i, rfl⟩, ⟨j, rfl⟩⟩, rfl⟩, rfl, rfl,
    fun j => mk0_sides_getD _ _ j⟩

/-- Rebuilding the grid on a zero-count state preserves every invariant:
the new cells are fresh, with no side drawn and no owner. -/
lemma inv_set_cells (h : Game) (hI : Inv h) (hz : h.cells_completed = 0) :
    Inv (Game.set_cells h) := by
  have hfresh := set_cells_fresh h hI.grids_row hI.grids_col
  refine ⟨hI.players_eq, hI.turn_lt, hI.player_eq, hI.next_false,
    hI.score_sum, hI.go_iff, ?_, ?_, hI.grids_row, hI.grids_col,
    hI.total_eq, hI.dim_pos, fun cl hcl => (hfresh cl hcl).1, ?_, ?_⟩
  · show h.cells_completed ≤ completeCount (Game.set_cells h).game_cells
    rw [hz]
    exact Nat.zero_le _
  · show (Game.set_cells h).game_cells.length = h.total_cells
    have h0 : (0 : Int) ≤ h.cells_dim := le_trans (by omega) hI.dim_pos
    rw [set_cells_length h]
    show h.rowGrid.dropLast.length * h.colGrid.dropLast.length
      = h.total_cells
    rw [hI.grids_row, hI.grids_col, mkRowGrid_dropLast_length _ h0,
      mkColGrid_dropLast_length _ h0, hI.total_eq, toNat_mul_self _ h0]
  · intro a ha b hb i j hij
    rw [((hfresh a ha).2.2.2 i.val), ((hfresh b hb).2.2.2 j.val)]
  · intro cl hcl
    constructor
    · rw [(hfresh cl hcl).2.1, (hfresh cl hcl).2.2.1]
      simp
    · intro u hu
      rw [(hfresh cl hcl).2.1] at hu
      exact absurd hu (by simp)

/-- Game.reset without grid rebuild preserves every invariant. -/
lemma inv_reset_nogrid (g : Game) (hI : Inv g) (t : Nat) (ht : t ≤ 1) :
    Inv (g.reset t false) := by
  have htot := hI.total_pos
  have hbeq : ((0 : Nat) == g.total_cells) = false := by
    rw [beq_eq_false_iff_ne]
    omega
  exact ⟨rfl, (show t < 2 by omega), rfl, rfl, rfl, hbeq.symm,
    Nat.zero_le _, hI.len_eq, hI.grids_row, hI.grids_col, hI.total_eq,
    hI.dim_pos, hI.cells_ok, hI.agree, hI.text_ok⟩

/-- Game.reset preserves every invariant: scores, count and flag are
re-zeroed consistently, and the cells are either untouched or rebuilt
fresh from the stored grid lines. -/
lemma inv_reset (g : Game) (hI : Inv g) (t : Nat) (ht : t ≤ 1) (rb : Bool) :
    Inv (g.reset t rb) := by
  cases rb with
  | false => exact inv_reset_nogrid g hI t ht
  | true =>
    have h1 : g.reset t true = Game.set_cells (g.reset t false) := rfl
    rw [h1]
    exact inv_set_cells _ (inv_reset_nogrid g hI t ht) rfl

/-- No cell sharing the clicked edge can already be complete, because its
local copy of that edge agrees with the clicked cell's, which is not yet
drawn. -/
lemma not_complete_of_shares_edge (cells : List Cell) (cl : Cell)
    (hcl : cl ∈ cells) (i : Fin 4)
    (H : ∀ b ∈ cells, ValidCell b) (HA : AgreeCells cells)
    (hmk : cl.sides.getD i.val false = false) :
    ∀ b ∈ cells, (∃ j : Fin 4, b.ends j = cl.ends i) →
      isComplete b = false := by
  rintro b hb ⟨j, hj⟩
  have hsj : b.sides.getD j.val false = false := by
    rw [HA b hb cl hcl j i hj]
    exact hmk
  cases hco : isComplete b with
  | false => rfl
  | true =>
    have hgd := isComplete_getD b (H b hb).2 hco j
    rw [hsj] at hgd
    exact absurd hgd (by simp)

lemma valid_after (cells : List Cell) (k : Int) (E : Ends) (u : String)
    (H : ∀ b ∈ cells, ValidCell b) :
    ∀ b' ∈ (update_sides cells k E u).1, ValidCell b' := by
  intro b' hb'
  obtain ⟨b, hb, rfl⟩ := List.mem_map.1 hb'
  obtain ⟨⟨⟨i0, hr⟩, ⟨j0, hc⟩⟩, hlen⟩ := H b hb
  exact ⟨⟨⟨i0, by rw [markCell_fst_r, hr]⟩, ⟨j0, by rw [markCell_fst_c, hc]⟩⟩,
    by rw [markCell_fst_length]; exact hlen⟩

lemma agree_after (cells : List Cell) (cl : Cell) (hcl : cl ∈ cells)
    (i : Fin 4) (u : String)
    (H : ∀ b ∈ cells, ValidCell b) (HA : AgreeCells cells) :
    AgreeCells (update_sides cells (edgeKey (cl.ends i)) (cl.ends i) u).1 := by
  intro a' ha' b' hb' i' j' hij
  obtain ⟨a, ha, rfl⟩ := List.mem_map.1 ha'
  obtain ⟨b, hb, rfl⟩ := List.mem_map.1 hb'
  rw [markCell_ends, markCell_ends] at hij
  rw [markCell_sides_getD a (cl.ends i) u (H a ha).1 (H a ha).2 i',
      markCell_sides_getD b (cl.ends i) u (H b hb).1 (H b hb).2 j']
  by_cases hA : a.ends i' = cl.ends i
  · rw [if_pos hA, if_pos (show b.ends j' = cl.ends i by rw [← hij]; exact hA)]
  · rw [if_neg hA,
      if_neg (show ¬ b.ends j' = cl.ends i by
        intro hB
        exact hA (by rw [hij]; exact hB))]
    exact HA a ha b hb i' j' hij

lemma text_after (cells : List Cell) (cl : Cell) (hcl : cl ∈ cells)
    (i : Fin 4) (u : String)
    (H : ∀ b ∈ cells, ValidCell b) (HA : AgreeCells cells)
    (HT : TextOK cells)
    (hmk : cl.sides.getD i.val false = false)
    (hu : u = "X" ∨ u = "O") :
    TextOK (update_sides cells (edgeKey (cl.ends i)) (cl.ends i) u).1 := by
  have Hnc := not_complete_of_shares_edge cells cl hcl i H HA hmk
  intro b' hb'
  obtain ⟨b, hb, rfl⟩ := List.mem_map.1 hb'
  by_cases hm : ∃ j : Fin 4, b.ends j = cl.ends i
  · obtain ⟨j, hj⟩ := hm
    have hiff := markCell_complete_iff b (cl.ends i) u (H b hb).1 j hj
    rcases markCell_snd_cases (edgeKey (cl.ends i)) (cl.ends i) u b
      with h0 | h1
    · have htxt := (markCell_text_snd (edgeKey (cl.ends i))
        (cl.ends i) u b).2 h0
      have hnc := Hnc b hb ⟨j, hj⟩
      have hbnone : b.text = none := by
        cases hbt : b.text with
        | none => rfl
        | some v =>
          have := (HT b hb).1.1 ⟨v, hbt⟩
          rw [hnc] at this
          exact absurd this (by simp)
      have hc' : isComplete (markCell (edgeKey (cl.ends i))
          (cl.ends i) u b).1 = false := by
        cases hcb : isComplete (markCell (edgeKey (cl.ends i))
            (cl.ends i) u b).1 with
        | false => rfl
        | true =>
          rw [hiff.1 hcb] at h0
          exact absurd h0 (by omega)
      constructor
      · rw [htxt, hbnone, hc']
        simp
      · intro v hv
        rw [htxt, hbnone] at hv
        exact absurd hv (by simp)
    · have htxt := (markCell_text_snd (edgeKey (cl.ends i))
        (cl.ends i) u b).1 h1
      constructor
      · rw [htxt, hiff.2 h1]
        simp
      · intro v hv
        rw [htxt] at hv
        injection hv with hv
        rw [← hv]
        exact hu
  · have hbeq : (markCell (edgeKey (cl.ends i)) (cl.ends i) u b).1 = b := by
      rw [markCell_of_not_matched b (cl.ends i) u hm]
    rw [hbeq]
    exact HT b hb

/-- After initialize_game with a positive dimension all invariants
hold. -/
lemma inv_start (d : Int) (hd : 1 ≤ d) (t : Nat) (ht : t ≤ 1) (g0 : Game)
    (h : (Game.init0 t).initGame d = some g0) : Inv g0 := by
  have hlen : (mkRowGrid d).length = (d + 1).toNat := by
    unfold mkRowGrid
    simp
  have hne : ¬ ((mkRowGrid d).isEmpty = true) := by
    rw [List.isEmpty_iff]
    intro hnil
    rw [hnil] at hlen
    simp at hlen
    omega
  unfold Game.initGame at h
  rw [if_neg hne] at h
  injection h with h
  subst h
  have h0 : (0 : Int) ≤ d := by omega
  have htot : 1 ≤ (d * d).toNat := by
    have h1 : 1 ≤ d * d := le_trans hd (le_mul_of_one_le_left (by omega) hd)
    omega
  have hbeq : ((0 : Nat) == (d * d).toNat) = false := by
    rw [beq_eq_false_iff_ne]
    omega
  have hfresh := set_cells_fresh
    ({ Game.init0 t with
        cells_dim := d
        rowGrid := mkRowGrid d
        colGrid := mkColGrid d
        total_cells := (d * d).toNat }) rfl rfl
  refine ⟨rfl, (show t < 2 by omega), rfl, rfl, rfl, hbeq.symm,
    Nat.zero_le _, ?_, rfl, rfl, rfl, hd,
    fun cl hcl => (hfresh cl hcl).1, ?_, ?_⟩
  · show (Game.set_cells _).game_cells.length = (d * d).toNat
    rw [set_cells_length]
    show (mkRowGrid d).dropLast.length * (mkColGrid d).dropLast.length = _
    rw [mkRowGrid_dropLast_length _ h0, mkColGrid_dropLast_length _ h0,
      toNat_mul_self _ h0]
  · intro a ha b hb i j hij
    rw [((hfresh a ha).2.2.2 i.val), ((hfresh b hb).2.2.2 j.val)]
  · intro cl hcl
    constructor
    · rw [(hfresh cl hcl).2.1, (hfresh cl hcl).2.2.1]
      simp
    · intro u hu
      rw [(hfresh cl hcl).2.1] at hu
      exact absurd hu (by simp)

/-- Game.is_cell_clicked preserves every invariant, whatever cell of the
board is clicked and wherever. -/
lemma inv_click (g : Game) (hI : Inv g) (cl : Cell)
    (hcl : cl ∈ g.game_cells) (m : Pt) : Inv (g.is_cell_clicked cl m) := by
  have hvc := hI.cells_ok cl hcl
  rcases chainKey_cases cl m with hz | ⟨i, hchain⟩
  · rw [is_cell_clicked_of_rejected g cl m hI.next_false
      (by rw [hI.next_false]
          exact is_edge_click_of_chain_zero g.game_cells cl m false
            g.player hz)]
    exact hI
  · cases hmk : cl.sides.getD i.val false with
    | true =>
      have hh : cl.sides.getD
          (cl.keys.findIdx (fun k => k == chainKey cl m)) false = true := by
        rw [hchain, findIdx_keys cl hvc.1 i]
        exact hmk
      rw [is_cell_clicked_of_rejected g cl m hI.next_false
        (by rw [hI.next_false]
            exact is_edge_click_of_marked g.game_cells cl m false
              g.player hh)]
      exact hI
    | false =>
      have hacc := is_edge_click_accepted g.game_cells cl m g.next_turn
        g.player hvc.1 i hchain hmk
      have Hv : ∀ b ∈ g.game_cells, ValidCell b := hI.cells_ok
      have Hnc := not_complete_of_shares_edge g.game_cells cl hcl i Hv
        hI.agree hmk
      have Hcount := update_sides_count g.game_cells (cl.ends i) g.player
        (fun b hb => (Hv b hb).1) Hnc
      have Hok' := valid_after g.game_cells (edgeKey (cl.ends i))
        (cl.ends i) g.player Hv
      have Hagree' := agree_after g.game_cells cl hcl i g.player Hv hI.agree
      have Htext' := text_after g.game_cells cl hcl i g.player Hv hI.agree
        hI.text_ok hmk hI.player_mem
      have Hlen' : (update_sides g.game_cells (edgeKey (cl.ends i))
          (cl.ends i) g.player).1.length = g.game_cells.length := by
        unfold update_sides
        simp
      have hplen : g.players.length = 2 := by
        rw [hI.players_eq]
        rfl
      by_cases hn : (update_sides g.game_cells (edgeKey (cl.ends i))
          (cl.ends i) g.player).2 = 0
      · have hres : is_edge_click g.game_cells cl m g.next_turn g.player
            = (true, 0, (update_sides g.game_cells (edgeKey (cl.ends i))
              (cl.ends i) g.player).1) := by
          rw [hacc, hn]
          rfl
        rw [is_cell_clicked_of_nofill g cl m _ hres]
        rw [hn] at Hcount
        refine ⟨hI.players_eq, ?_, rfl, rfl, hI.score_sum, hI.go_iff, ?_,
          Hlen'.trans hI.len_eq, hI.grids_row, hI.grids_col, hI.total_eq,
          hI.dim_pos, Hok', Hagree', Htext'⟩
        · show (g.turn + 1) % g.players.length < 2
          rw [hplen]
          omega
        · show g.cells_completed ≤ completeCount
            (update_sides g.game_cells (edgeKey (cl.ends i))
              (cl.ends i) g.player).1
          rw [Hcount]
          have := hI.count_le
          omega
      · have hres : is_edge_click g.game_cells cl m g.next_turn g.player
            = (false, (update_sides g.game_cells (edgeKey (cl.ends i))
                (cl.ends i) g.player).2,
               (update_sides g.game_cells (edgeKey (cl.ends i))
                (cl.ends i) g.player).1) := by
          rw [hacc, if_pos hn]
        rw [is_cell_clicked_of_fill g cl m _ _ hn hres]
        refine ⟨hI.players_eq, hI.turn_lt, hI.player_eq, rfl, ?_, rfl, ?_,
          Hlen'.trans hI.len_eq, hI.grids_row, hI.grids_col, hI.total_eq,
          hI.dim_pos, Hok', Hagree', Htext'⟩
        · show (if g.player = "X" then g.p1_score +
              (update_sides g.game_cells (edgeKey (cl.ends i))
                (cl.ends i) g.player).2 else g.p1_score) +
            (if g.player = "X" then g.p2_score else g.p2_score +
              (update_sides g.game_cells (edgeKey (cl.ends i))
                (cl.ends i) g.player).2) =
            g.cells_completed + (update_sides g.game_cells
              (edgeKey (cl.ends i)) (cl.ends i) g.player).2
          have := hI.score_sum
          split_ifs <;> omega
        · show g.cells_completed + (update_sides g.game_cells
              (edgeKey (cl.ends i)) (cl.ends i) g.player).2 ≤
            completeCount (update_sides g.game_cells (edgeKey (cl.ends i))
              (cl.ends i) g.player).1
          rw [Hcount]
          have := hI.count_le
          omega

/-- One edge-attempt operation: the event loop routes a pointer-down to
Game.is_cell_clicked for a cell of the board. -/
def ClickStep (g g' : Game) : Prop :=
  ∃ cl ∈ g.game_cells, ∃ m : Pt, g' = g.is_cell_clicked cl m

/-- One reset operation, of either granularity; turn0 models the
random.randint(0, 1) draw. -/
def ResetStep (g g' : Game) : Prop :=
  ∃ t : Nat, t ≤ 1 ∧ ∃ rb : Bool, g' = g.reset t rb

def Step (g g' : Game) : Prop := ClickStep g g' ∨ ResetStep g g'

/-- Any number of engine operations. -/
def Steps : Game → Game → Prop := Relation.ReflTransGen Step

/-- A board freshly built by initialize_game with dimension d. -/
def StartOf (d : Int) (g0 : Game) : Prop :=
  ∃ t : Nat, t ≤ 1 ∧ (Game.init0 t).initGame d = some g0

/-- States of a dimension-d board reachable by any sequence of engine
operations. -/
def ReachableDim (d : Int) (g : Game) : Prop :=
  ∃ g0, StartOf d g0 ∧ Steps g0 g

/-- States reachable on a board of some positive dimension. -/
def Reachable (g : Game) : Prop := ∃ d : Int, 1 ≤ d ∧ ReachableDim d g

lemma inv_step (g g' : Game) (hI : Inv g) (h : Step g g') : Inv g' := by
  rcases h with ⟨cl, hcl, m, rfl⟩ | ⟨t, ht, rb, rfl⟩
  · exact inv_click g hI cl hcl m
  · exact inv_reset g hI t ht rb

lemma inv_steps (g g' : Game) (hI : Inv g) (h : Steps g g') : Inv g' := by
  induction h with
  | refl => exact hI
  | tail h1 h2 ih => exact inv_step _ _ ih h2

lemma inv_reachable_dim (d : Int) (hd : 1 ≤ d) (g : Game)
    (h : ReachableDim d g) : Inv g := by
  obtain ⟨g0, ⟨t, ht, h0⟩, hsteps⟩ := h
  exact inv_steps g0 g (inv_start d hd t ht g0 h0) hsteps

lemma inv_reachable (g : Game) (h : Reachable g) : Inv g := by
  obtain ⟨d, hd, hr⟩ := h
  exact inv_reachable_dim d hd g hr

lemma click_dim (g : Game) (cl : Cell) (m : Pt) :
    (g.is_cell_clicked cl m).cells_dim = g.cells_dim ∧
    (g.is_cell_clicked cl m).total_cells = g.total_cells := by
  constructor <;>
    (unfold Game.is_cell_clicked
     dsimp only
     split_ifs <;> rfl)

lemma step_dim (g g' : Game) (h : Step g g') :
    g'.cells_dim = g.cells_dim ∧ g'.total_cells = g.total_cells := by
  rcases h with ⟨cl, hcl, m, rfl⟩ | ⟨t, ht, rb, rfl⟩
  · exact click_dim g cl m
  · cases rb <;> exact ⟨rfl, rfl⟩

lemma steps_dim (g g' : Game) (h : Steps g g') :
    g'.cells_dim = g.cells_dim ∧ g'.total_cells = g.total_cells := by
  induction h with
  | refl => exact ⟨rfl, rfl⟩
  | tail h1 h2 ih =>
    have := step_dim _ _ h2
    exact ⟨this.1.trans ih.1, this.2.trans ih.2⟩

lemma start_dim (d : Int) (g0 : Game) (h : StartOf d g0) :
    g0.cells_dim = d := by
  obtain ⟨t, ht, h⟩ := h
  unfold Game.initGame at h
  by_cases he : (mkRowGrid d).isEmpty = true
  · rw [if_pos he] at h
    exact absurd h (by simp)
  · rw [if_neg he] at h
    injection h with h
    subst h
    rfl

lemma reachable_dim_eq (d : Int) (g : Game) (h : ReachableDim d g) :
    g.cells_dim = d := by
  obtain ⟨g0, h0, hsteps⟩ := h
  exact (steps_dim g0 g hsteps).1.trans (start_dim d g0 h0)

/-- In a reachable gameover state every cell of the board is complete. -/
lemma all_complete_of_gameover (g : Game) (hI : Inv g)
    (hgo : g.gameover = true) : ∀ cl ∈ g.game_cells, isComplete cl = true := by
  have hcnt : g.cells_completed = g.total_cells := by
    have hgi := hI.go_iff
    rw [hgo] at hgi
    exact eq_of_beq hgi.symm
  have hall : completeCount g.game_cells = g.game_cells.length := by
    have h1 := hI.count_le
    have h2 : completeCount g.game_cells ≤ g.game_cells.length :=
      List.countP_le_length isComplete
    rw [hcnt, ← hI.len_eq] at h1
    omega
  exact fun cl hcl => List.countP_eq_length.1 hall cl hcl

/-- In a reachable gameover state any further click is a no-op: every
edge of every cell is already drawn, so the attempt is rejected. -/
lemma click_noop_of_gameover (g : Game) (hI : Inv g)
    (hgo : g.gameover = true) (cl : Cell) (hcl : cl ∈ g.game_cells)
    (m : Pt) : g.is_cell_clicked cl m = g := by
  have hvc := hI.cells_ok cl hcl
  have hcomp := all_complete_of_gameover g hI hgo cl hcl
  rcases chainKey_cases cl m with hz | ⟨i, hchain⟩
  · exact is_cell_clicked_of_rejected g cl m hI.next_false
      (by rw [hI.next_false]
          exact is_edge_click_of_chain_zero g.game_cells cl m false
            g.player hz)
  · have hh : cl.sides.getD
        (cl.keys.findIdx (fun k => k == chainKey cl m)) false = true := by
      rw [hchain, findIdx_keys cl hvc.1 i]
      exact isComplete_getD cl hvc.2 hcomp i
    exact is_cell_clicked_of_rejected g cl m hI.next_false
      (by rw [hI.next_false]
          exact is_edge_click_of_marked g.game_cells cl m false g.player hh)

/-- The score slot credited by is_cell_clicked: 'X' scores to p1_score,
the other player to p2_score. -/
def actingScore (g : Game) : Nat :=
  if g.player = "X" then g.p1_score else g.p2_score

/-- The score slot of the non-acting player. -/
def otherScore (g : Game) : Nat :=
  if g.player = "X" then g.p2_score else g.p1_score

/-- The other of the two fixed player identifiers. -/
def otherPlayer (p : String) : String := if p = "X" then "O" else "X"

/-- The side index a click resolves to inside Cell.is_edge_click: Python
keeps the chain's edge key when truthy and looks up its position in the
edge dict's key list. -/
def clickSide (cl : Cell) (m : Pt) : Option Nat :=
  if chainKey cl m = 0 then none
  else some (cl.keys.findIdx (fun k => k == chainKey cl m))

/-- Distance from the click to each of the four sides, indexed in the
side order LEFT, TOP, RIGHT, BOTTOM used by Cell.check_hover and
Cell.sides. -/
def sideDist (cl : Cell) (m : Pt) (i : Fin 4) : Int :=
  [|m.1 - cl.left|, |m.2 - cl.top|, |m.1 - cl.right|,
   |m.2 - cl.bottom|].getD i.val 0

/-- Python min over the (distance, side index) pairs, first value winning
ties, as in Cell.check_hover. -/
def bestPair (cl : Cell) (m : Pt) : Int × Nat :=
  [(|m.1 - cl.left|, (0 : Nat)), (|m.2 - cl.top|, 1),
   (|m.1 - cl.right|, 2), (|m.2 - cl.bottom|, 3)].foldl
    (fun a b => if b.1 < a.1 then b else a) (|m.1 - cl.left|, 0)

/-- Modelled from the spec: "compute distance from the point to each of
the 4 sides of the enclosing cell, select the minimum if it is below the
threshold AND that side is not yet marked, else no selection."  Ties
resolve to the earlier side, as in Python's min over (distance, index)
pairs. -/
def specResolve (cl : Cell) (m : Pt) : Option Nat :=
  if (bestPair cl m).1 < EDGE_THRESHOLD ∧
      cl.sides.getD (bestPair cl m).2 false = false
  then some (bestPair cl m).2 else none

lemma bestPair_cases (cl : Cell) (m : Pt) :
    bestPair cl m = (|m.1 - cl.left|, 0) ∨
    bestPair cl m = (|m.2 - cl.top|, 1) ∨
    bestPair cl m = (|m.1 - cl.right|, 2) ∨
    bestPair cl m = (|m.2 - cl.bottom|, 3) := by
  unfold bestPair
  simp only [List.foldl_cons, List.foldl_nil]
  split_ifs <;> simp

/-- The Python min always returns the pair of some side whose distance is
minimal among the four. -/
lemma bestPair_char (cl : Cell) (m : Pt) :
    ∃ s : Fin 4, bestPair cl m = (sideDist cl m s, s.val) ∧
      ∀ j : Fin 4, sideDist cl m s ≤ sideDist cl m j := by
  unfold bestPair
  simp only [List.foldl_cons, List.foldl_nil]
  rw [if_neg (lt_irrefl |m.1 - cl.left|)]
  dsimp only
  by_cases hTL : |m.2 - cl.top| < |m.1 - cl.left|
  · rw [if_pos hTL]
    dsimp only
    by_cases hRT : |m.1 - cl.right| < |m.2 - cl.top|
    · rw [if_pos hRT]
      dsimp only
      by_cases hBR : |m.2 - cl.bottom| < |m.1 - cl.right|
      · rw [if_pos hBR]
        refine ⟨⟨3, by omega⟩, rfl, ?_⟩
        intro j
        match j with
        | ⟨0, _⟩ => show |m.2 - cl.bottom| ≤ |m.1 - cl.left|; omega
        | ⟨1, _⟩ => show |m.2 - cl.bottom| ≤ |m.2 - cl.top|; omega
        | ⟨2, _⟩ => show |m.2 - cl.bottom| ≤ |m.1 - cl.right|; omega
        | ⟨3, _⟩ => show |m.2 - cl.bottom| ≤ |m.2 - cl.bottom|; omega
        | ⟨n + 4, hj⟩ => exact absurd hj (by omega)
      · rw [if_neg hBR]
        refine ⟨⟨2, by omega⟩, rfl, ?_⟩
        intro j
        match j with
        | ⟨0, _⟩ => show |m.1 - cl.right| ≤ |m.1 - cl.left|; omega
        | ⟨1, _⟩ => show |m.1 - cl.right| ≤ |m.2 - cl.top|; omega
        | ⟨2, _⟩ => show |m.1 - cl.right| ≤ |m.1 - cl.right|; omega
        | ⟨3, _⟩ => show |m.1 - cl.right| ≤ |m.2 - cl.bottom|; omega
        | ⟨n + 4, hj⟩ => exact absurd hj (by omega)
    · rw [if_neg hRT]
      dsimp only
      by_cases hBT : |m.2 - cl.bottom| < |m.2 - cl.top|
      · rw [if_pos hBT]
        refine ⟨⟨3, by omega⟩, rfl, ?_⟩
        intro j
        match j with
        | ⟨0, _⟩ => show |m.2 - cl.bottom| ≤ |m.1 - cl.left|; omega
        | ⟨1, _⟩ => show |m.2 - cl.bottom| ≤ |m.2 - cl.top|; omega
        | ⟨2, _⟩ => show |m.2 - cl.bottom| ≤ |m.1 - cl.right|; omega
        | ⟨3, _⟩ => show |m.2 - cl.bottom| ≤ |m.2 - cl.bottom|; omega
        | ⟨n + 4, hj⟩ => exact absurd hj (by omega)
      · rw [if_neg hBT]
        refine ⟨⟨1, by omega⟩, rfl, ?_⟩
        intro j
        match j with
        | ⟨0, _⟩ => show |m.2 - cl.top| ≤ |m.1 - cl.left|; omega
        | ⟨1, _⟩ => show |m.2 - cl.top| ≤ |m.2 - cl.top|; omega
        | ⟨2, _⟩ => show |m.2 - cl.top| ≤ |m.1 - cl.right|; omega
        | ⟨3, _⟩ => show |m.2 - cl.top| ≤ |m.2 - cl.bottom|; omega
        | ⟨n + 4, hj⟩ => exact absurd hj (by omega)
  · rw [if_neg hTL]
    dsimp only
    by_cases hRL : |m.1 - cl.right| < |m.1 - cl.left|
    · rw [if_pos hRL]
      dsimp only
      by_cases hBR : |m.2 - cl.bottom| < |m.1 - cl.right|
      · rw [if_pos hBR]
        refine ⟨⟨3, by omega⟩, rfl, ?_⟩
        intro j
        match j with
        | ⟨0, _⟩ => show |m.2 - cl.bottom| ≤ |m.1 - cl.left|; omega
        | ⟨1, _⟩ => show |m.2 - cl.bottom| ≤ |m.2 - cl.top|; omega
        | ⟨2, _⟩ => show |m.2 - cl.bottom| ≤ |m.1 - cl.right|; omega
        | ⟨3, _⟩ => show |m.2 - cl.bottom| ≤ |m.2 - cl.bottom|; omega
        | ⟨n + 4, hj⟩ => exact absurd hj (by omega)
      · rw [if_neg hBR]
        refine ⟨⟨2, by omega⟩, rfl, ?_⟩
        intro j
        match j with
        | ⟨0, _⟩ => show |m.1 - cl.right| ≤ |m.1 - cl.left|; omega
        | ⟨1, _⟩ => show |m.1 - cl.right| ≤ |m.2 - cl.top|; omega
        | ⟨2, _⟩ => show |m.1 - cl.right| ≤ |m.1 - cl.right|; omega
        | ⟨3, _⟩ => show |m.1 - cl.right| ≤ |m.2 - cl.bottom|; omega
        | ⟨n + 4, hj⟩ => exact absurd hj (by omega)
    · rw [if_neg hRL]
      dsimp only
      by_cases hBL : |m.2 - cl.bottom| < |m.1 - cl.left|
      · rw [if_pos hBL]
        refine ⟨⟨3, by omega⟩, rfl, ?_⟩
        intro j
        match j with
        | ⟨0, _⟩ => show |m.2 - cl.bottom| ≤ |m.1 - cl.left|; omega
        | ⟨1, _⟩ => show |m.2 - cl.bottom| ≤ |m.2 - cl.top|; omega
        | ⟨2, _⟩ => show |m.2 - cl.bottom| ≤ |m.1 - cl.right|; omega
        | ⟨3, _⟩ => show |m.2 - cl.bottom| ≤ |m.2 - cl.bottom|; omega
        | ⟨n + 4, hj⟩ => exact absurd hj (by omega)
      · rw [if_neg hBL]
        refine ⟨⟨0, by omega⟩, rfl, ?_⟩
        intro j
        match j with
        | ⟨0, _⟩ => show |m.1 - cl.left| ≤ |m.1 - cl.left|; omega
        | ⟨1, _⟩ => show |m.1 - cl.left| ≤ |m.2 - cl.top|; omega
        | ⟨2, _⟩ => show |m.1 - cl.left| ≤ |m.1 - cl.right|; omega
        | ⟨3, _⟩ => show |m.1 - cl.left| ≤ |m.2 - cl.bottom|; omega
        | ⟨n + 4, hj⟩ => exact absurd hj (by omega)

/-- When one side is strictly nearer than the other three, the Python min
returns exactly that side. -/
lemma bestPair_eq_of_min (cl : Cell) (m : Pt) (s : Fin 4)
    (hmin : ∀ j : Fin 4, j ≠ s → sideDist cl m s < sideDist cl m j) :
    bestPair cl m = (sideDist cl m s, s.val) := by
  obtain ⟨w, hbp, hw⟩ := bestPair_char cl m
  by_cases hws : w = s
  · rw [hws] at hbp
    exact hbp
  · have h1 := hmin w hws
    have h2 := hw s
    omega

/-- A click is either a complete no-op, or it is accepted on a
not-yet-drawn side i and the new cell list is the update_sides result for
edge i. -/
lemma click_cases (g : Game) (hI : Inv g) (cl : Cell)
    (hcl : cl ∈ g.game_cells) (m : Pt) :
    g.is_cell_clicked cl m = g ∨
    ∃ i : Fin 4, cl.sides.getD i.val false = false ∧
      chainKey cl m = cl.keys.getD i.val 0 ∧
      (g.is_cell_clicked cl m).game_cells =
        (update_sides g.game_cells (edgeKey (cl.ends i)) (cl.ends i)
          g.player).1 := by
  have hvc := hI.cells_ok cl hcl
  rcases chainKey_cases cl m with hz | ⟨i, hchain⟩
  · left
    exact is_cell_clicked_of_rejected g cl m hI.next_false
      (by rw [hI.next_false]
          exact is_edge_click_of_chain_zero g.game_cells cl m false
            g.player hz)
  · cases hmk : cl.sides.getD i.val false with
    | true =>
      left
      have hh : cl.sides.getD
          (cl.keys.findIdx (fun k => k == chainKey cl m)) false = true := by
        rw [hchain, findIdx_keys cl hvc.1 i]
        exact hmk
      exact is_cell_clicked_of_rejected g cl m hI.next_false
        (by rw [hI.next_false]
            exact is_edge_click_of_marked g.game_cells cl m false
              g.player hh)
    | false =>
      right
      refine ⟨i, hmk, hchain, ?_⟩
      have hacc := is_edge_click_accepted g.game_cells cl m g.next_turn
        g.player hvc.1 i hchain hmk
      by_cases hn : (update_sides g.game_cells (edgeKey (cl.ends i))
          (cl.ends i) g.player).2 = 0
      · rw [is_cell_clicked_of_nofill g cl m _ (by rw [hacc, hn]; rfl)]
      · rw [is_cell_clicked_of_fill g cl m _ _ hn
          (by rw [hacc, if_pos hn])]

/-- Default cell for list lookups in concrete runs. -/
def cDef : Cell := Cell.mk0 0 0

/-- A freshly initialized 1-cell board (dimension 1, starting player X). -/
def fresh1 : Game := ((Game.init0 0).initGame 1).getD (Game.init0 0)

/-- A freshly initialized 2x2 board. -/
def fresh2 : Game := ((Game.init0 0).initGame 2).getD (Game.init0 0)

/-- The degenerate dimension-0 board the source happily builds. -/
def fresh0 : Game := ((Game.init0 0).initGame 0).getD (Game.init0 0)

/-- Play the single cell of fresh1 to completion: left, top, right,
bottom. -/
def w1 : Game := fresh1.is_cell_clicked (fresh1.game_cells.getD 0 cDef) (50, 140)

def w2 : Game := w1.is_cell_clicked (w1.game_cells.getD 0 cDef) (90, 100)

def w3 : Game := w2.is_cell_clicked (w2.game_cells.getD 0 cDef) (130, 140)

def w4 : Game := w3.is_cell_clicked (w3.game_cells.getD 0 cDef) (90, 180)

/-- One click on the shared edge between the two top cells of fresh2. -/
def u1 : Game := fresh2.is_cell_clicked (fresh2.game_cells.getD 0 cDef) (130, 140)

lemma fresh1_start : StartOf 1 fresh1 := ⟨0, Nat.zero_le _, rfl⟩

lemma fresh1_reach : Reachable fresh1 :=
  ⟨1, le_refl 1, fresh1, fresh1_start, Relation.ReflTransGen.refl⟩

lemma fresh2_start : StartOf 2 fresh2 := ⟨0, Nat.zero_le _, rfl⟩

lemma fresh2_reach : Reachable fresh2 :=
  ⟨2, by omega, fresh2, fresh2_start, Relation.ReflTransGen.refl⟩

lemma step_w1 : Step fresh1 w1 :=
  Or.inl ⟨fresh1.game_cells.getD 0 cDef, by decide, (50, 140), rfl⟩

lemma step_w2 : Step w1 w2 :=
  Or.inl ⟨w1.game_cells.getD 0 cDef, by decide, (90, 100), rfl⟩

lemma step_w3 : Step w2 w3 :=
  Or.inl ⟨w2.game_cells.getD 0 cDef, by decide, (130, 140), rfl⟩

lemma step_w4 : Step w3 w4 :=
  Or.inl ⟨w3.game_cells.getD 0 cDef, by decide, (90, 180), rfl⟩

lemma w4_reach : Reachable w4 :=
  ⟨1, le_refl 1, fresh1, fresh1_start,
    Relation.ReflTransGen.tail
      (Relation.ReflTransGen.tail
        (Relation.ReflTransGen.tail
          (Relation.ReflTransGen.tail Relation.ReflTransGen.refl step_w1)
          step_w2)
        step_w3)
      step_w4⟩

/-- An artificial state with the gameover flag set but an undrawn cell:
the source never checks the flag, so a click still mutates it. -/
def badCell : Cell := Cell.mk0 100 50

def badG : Game :=
  { turn := 0, players := ["X", "O"], moves := [true, false], player := "X",
    next_turn := false, p1_score := 0, p2_score := 0, gameover := true,
    cells_completed := 0, cells_dim := 1, total_cells := 1,
    rowGrid := mkRowGrid 1, colGrid := mkColGrid 1,
    game_cells := [badCell], grid_ready := true }

lemma u1_reach : Reachable u1 :=
  ⟨2, by omega, fresh2, fresh2_start,
    Relation.ReflTransGen.tail Relation.ReflTransGen.refl
      (Or.inl ⟨fresh2.game_cells.getD 0 cDef, by decide, (130, 140), rfl⟩)⟩

/-- C3: In every state reachable from a freshly constructed or reset
board by edge-attempt operations (the Steps relation includes resets of
both granularities), the sum of the two players' scores equals the
completed-box count. -/
theorem C3_score_sum_eq_completed (g : Game) (h : Reachable g) :
    g.p1_score + g.p2_score = g.cells_completed :=
  (inv_reachable g h).score_sum

/-- Witness for C3 at the freshly constructed 1x1 board. -/
theorem C3_witness :
    Reachable fresh1 ∧
      fresh1.p1_score + fresh1.p2_score = fresh1.cells_completed :=
  ⟨fresh1_reach, C3_score_sum_eq_completed fresh1 fresh1_reach⟩

/-- C10: In every reachable game state, any two cells whose edge entries
for some edge carry the same pair of endpoint coordinates agree on that
edge's drawn flag: every successful mark propagates to all cells whose
edge dict holds the same endpoints. -/
theorem C10_shared_edge_agree (g : Game) (h : Reachable g) :
    ∀ a ∈ g.game_cells, ∀ b ∈ g.game_cells, ∀ i j : Fin 4,
      a.ends i = b.ends j →
        a.sides.getD i.val false = b.sides.getD j.val false :=
  (inv_reachable g h).agree

/-- Witness for C10: after one click on the edge shared by the two top
cells of a 2x2 board, the RIGHT flag of the first cell agrees with the
LEFT flag of its neighbour. -/
theorem C10_witness :
    (u1.game_cells.getD 0 cDef).sides.getD (2 : Fin 4).val false =
      (u1.game_cells.getD 1 cDef).sides.getD (0 : Fin 4).val false :=
  C10_shared_edge_agree u1 u1_reach _ (by decide) _ (by decide) 2 0
    (by decide)

/-- C4 counterexample: the claim quantifies over every board dimension N,
but the source builds a dimension-0 board without complaint, and its
initial state (reachable by the empty sequence of edge attempts) has
completed-box count equal to total_cells = 0² while the gameover flag is
false, refuting the claimed equivalence at N = 0. -/
theorem C4_counterexample :
    ReachableDim 0 fresh0 ∧ fresh0.gameover = false ∧
      fresh0.cells_completed = fresh0.total_cells :=
  ⟨⟨fresh0, ⟨0, Nat.zero_le _, rfl⟩, Relation.ReflTransGen.refl⟩,
    by decide, by decide⟩

/-- C4 amended: for every positive dimension N, in every reachable state
of an N-dimension board the gameover flag is true iff the completed-box
count equals total_cells = N², and the flag is never set while any box is
incomplete. -/
theorem C4_gameover_iff_complete (d : Int) (hd : 1 ≤ d) (g : Game)
    (h : ReachableDim d g) :
    (g.gameover = true ↔ g.cells_completed = g.total_cells) ∧
    g.total_cells = (d * d).toNat ∧
    (g.gameover = true → ∀ cl ∈ g.game_cells, isComplete cl = true) := by
  have hI := inv_reachable_dim d hd g h
  have hdim := reachable_dim_eq d g h
  refine ⟨⟨?_, ?_⟩, ?_, fun hgo => all_complete_of_gameover g hI hgo⟩
  · intro hgo
    have hgi := hI.go_iff
    rw [hgo] at hgi
    exact eq_of_beq hgi.symm
  · intro hcc
    rw [hI.go_iff, hcc]
    simp
  · rw [hI.total_eq, hdim]

/-- Witness for C4 on the 1x1 board. -/
theorem C4_witness :
    fresh1.total_cells = ((1 : Int) * 1).toNat ∧
      (fresh1.gameover = true ↔
        fresh1.cells_completed = fresh1.total_cells) :=
  ⟨(C4_gameover_iff_complete 1 (le_refl 1) fresh1
      ⟨fresh1, fresh1_start, Relation.ReflTransGen.refl⟩).2.1,
   (C4_gameover_iff_complete 1 (le_refl 1) fresh1
      ⟨fresh1, fresh1_start, Relation.ReflTransGen.refl⟩).1⟩

/-- C2 counterexample: the claim says every state with the gameover flag
set rejects edge attempts with a GameAlreadyOver error and leaves the
state unchanged.  The source never consults the flag and defines no such
error: on a state with the flag set but an undrawn edge, the attempt
still mutates the state. -/
theorem C2_counterexample :
    badG.gameover = true ∧
      badG.is_cell_clicked badCell (50, 140) ≠ badG := by
  constructor
  · rfl
  · decide

/-- C2 amended: the source has no GameAlreadyOver error and never checks
the gameover flag; in every REACHABLE state with the flag set, however,
every box is complete, so every edge attempt is silently rejected
(already-marked edge) and the entire state is unchanged. -/
theorem C2_gameover_click_noop (g : Game) (h : Reachable g)
    (hgo : g.gameover = true) :
    ∀ cl ∈ g.game_cells, ∀ m : Pt, g.is_cell_clicked cl m = g :=
  fun cl hcl m => click_noop_of_gameover g (inv_reachable g h) hgo cl hcl m

/-- Witness for C2 on a fully played-out 1x1 board. -/
theorem C2_witness :
    w4.gameover = true ∧
      w4.is_cell_clicked (w4.game_cells.getD 0 cDef) (50, 140) = w4 :=
  ⟨by decide,
   C2_gameover_click_noop w4 w4_reach (by decide) _ (by decide) (50, 140)⟩

/-- C8 counterexample: the claim says constructing a board with a
non-positive dimension is rejected with an InvalidConfiguration error.
The source performs no validation: dimension 0 succeeds and builds an
empty grid marked ready. -/
theorem C8_counterexample :
    ((Game.init0 0).initGame 0).isSome = true ∧
      fresh0.total_cells = 0 ∧ fresh0.game_cells = [] ∧
      fresh0.grid_ready = true := by
  decide

/-- C8 amended: no InvalidConfiguration error exists.  Dimension 0 is
accepted and builds a degenerate empty board; a negative dimension makes
ROW_GRID empty so max(ROW_GRID) raises an unhandled ValueError (modelled
as no result), which is not a defined configuration error. -/
theorem C8_nonpositive_dimension (g : Game) :
    (∀ d : Int, d ≤ -1 → g.initGame d = none) ∧
      (g.initGame 0).isSome = true := by
  constructor
  · intro d hd
    have hz : (d + 1).toNat = 0 := by omega
    have hnil : mkRowGrid d = [] := by
      unfold mkRowGrid
      rw [hz]
      rfl
    unfold Game.initGame
    rw [if_pos (by rw [hnil]; rfl)]
  · unfold Game.initGame
    rw [if_neg (by decide : ¬ ((mkRowGrid 0).isEmpty = true))]
    rfl

/-- Witness for C8. -/
theorem C8_witness :
    (Game.init0 0).initGame (-1) = none ∧
      ((Game.init0 0).initGame 0).isSome = true :=
  ⟨(C8_nonpositive_dimension (Game.init0 0)).1 (-1) (by omega),
   (C8_nonpositive_dimension (Game.init0 0)).2⟩

/-- C9: reset(turn0, rebuild) re-seeds the starting player (turn becomes
the fresh draw, 0 or 1, with player and moves agreeing), zeroes both
scores and the completed count, clears the gameover flag, and — when
rebuild is false — leaves the cell collection entirely untouched. -/
theorem C9_reset_behavior (g : Game) (t : Nat) (ht : t ≤ 1) (rb : Bool) :
    (g.reset t rb).turn = t ∧
    ((g.reset t rb).turn = 0 ∨ (g.reset t rb).turn = 1) ∧
    (g.reset t rb).players = ["X", "O"] ∧
    (g.reset t rb).player = ["X", "O"].getD t "" ∧
    (g.reset t rb).moves = (List.replicate 2 false).set t true ∧
    (g.reset t rb).next_turn = false ∧
    (g.reset t rb).p1_score = 0 ∧ (g.reset t rb).p2_score = 0 ∧
    (g.reset t rb).cells_completed = 0 ∧
    (g.reset t rb).gameover = false ∧
    (rb = false → (g.reset t rb).game_cells = g.game_cells) := by
  cases rb with
  | false =>
    exact ⟨rfl, (show t = 0 ∨ t = 1 by omega), rfl, rfl, rfl, rfl, rfl,
      rfl, rfl, rfl, fun _ => rfl⟩
  | true =>
    exact ⟨rfl, (show t = 0 ∨ t = 1 by omega), rfl, rfl, rfl, rfl, rfl,
      rfl, rfl, rfl, fun h => absurd h (by simp)⟩

/-- Witness for C9: reset of the 1x1 board with draw 1, no rebuild. -/
theorem C9_witness :
    (fresh1.reset 1 false).turn = 1 ∧
      (fresh1.reset 1 false).gameover = false ∧
      (fresh1.reset 1 false).game_cells = fresh1.game_cells :=
  ⟨(C9_reset_behavior fresh1 1 (le_refl 1) false).1,
   (C9_reset_behavior fresh1 1 (le_refl 1) false).2.2.2.2.2.2.2.2.2.1,
   (C9_reset_behavior fresh1 1 (le_refl 1) false).2.2.2.2.2.2.2.2.2.2 rfl⟩

/-- C5: In every reachable state, a box's owner text is set iff all four
of its edge flags are true, and a set owner is one of the two fixed
player marks; and across any edge-attempt operation, edge flags never go
from true to false and a set owner is never changed. -/
theorem C5_owner_discipline (g g' : Game) (hg : Reachable g)
    (cl0 : Cell) (m : Pt) (hcl0 : cl0 ∈ g.game_cells)
    (hg' : g' = g.is_cell_clicked cl0 m) :
    (∀ cl ∈ g.game_cells,
        ((∃ u, cl.text = some u) ↔ isComplete cl = true) ∧
        (∀ u, cl.text = some u → (u = "X" ∨ u = "O"))) ∧
    List.Forall₂
      (fun a b =>
        (∀ j : Fin 4, a.sides.getD j.val false = true →
            b.sides.getD j.val false = true) ∧
        (∀ u, a.text = some u → b.text = some u))
      g.game_cells g'.game_cells := by
  have hI := inv_reachable g hg
  subst hg'
  refine ⟨hI.text_ok, ?_⟩
  rcases click_cases g hI cl0 hcl0 m with heq | ⟨i, hmk, hchain, hcells⟩
  · rw [heq]
    exact List.forall₂_same.2 (fun a ha => ⟨fun j h => h, fun u h => h⟩)
  · rw [hcells]
    refine (List.forall₂_map_right_iff).2 ((List.forall₂_same).2 ?_)
    intro b hb
    constructor
    · intro j hj
      exact markCell_mono _ _ _ b j.val hj
    · intro u hu
      rcases markCell_snd_cases (edgeKey (cl0.ends i)) (cl0.ends i)
          g.player b with h0 | h1
      · rw [(markCell_text_snd (edgeKey (cl0.ends i)) (cl0.ends i)
          g.player b).2 h0]
        exact hu
      · exfalso
        have hmatched : ∃ j : Fin 4, b.ends j = cl0.ends i := by
          by_contra hnm
          rw [markCell_of_not_matched b (cl0.ends i) g.player hnm] at h1
          exact absurd h1 (by simp)
        have hnc := not_complete_of_shares_edge g.game_cells cl0 hcl0 i
          hI.cells_ok hI.agree hmk b hb hmatched
        have hsome := (hI.text_ok b hb).1.1 ⟨u, hu⟩
        rw [hnc] at hsome
        exact absurd hsome (by simp)

/-- Witness for C5: the fresh 1x1 board and its first click. -/
theorem C5_witness :
    (∀ cl ∈ fresh1.game_cells,
        ((∃ u, cl.text = some u) ↔ isComplete cl = true) ∧
        (∀ u, cl.text = some u → (u = "X" ∨ u = "O"))) ∧
    List.Forall₂
      (fun a b =>
        (∀ j : Fin 4, a.sides.getD j.val false = true →
            b.sides.getD j.val false = true) ∧
        (∀ u, a.text = some u → b.text = some u))
      fresh1.game_cells w1.game_cells :=
  C5_owner_discipline fresh1 w1 fresh1_reach
    (fresh1.game_cells.getD 0 cDef) (50, 140) (by decide) rfl

/-- C6: Marking the same physical edge a second time — through either of
the boxes whose edge dicts carry the same endpoint pair — is a complete
no-op: the second attempt changes nothing at all (in particular no side
flag, owner, score or completed count). -/
theorem C6_second_mark_noop (g : Game) (hg : Reachable g)
    (cl1 : Cell) (m1 : Pt) (hcl1 : cl1 ∈ g.game_cells) (i1 : Fin 4)
    (hch1 : chainKey cl1 m1 = cl1.keys.getD i1.val 0)
    (hunm : cl1.sides.getD i1.val false = false)
    (cl2 : Cell) (m2 : Pt)
    (hcl2 : cl2 ∈ (g.is_cell_clicked cl1 m1).game_cells) (i2 : Fin 4)
    (hch2 : chainKey cl2 m2 = cl2.keys.getD i2.val 0)
    (hshare : cl2.ends i2 = cl1.ends i1) :
    (g.is_cell_clicked cl1 m1).is_cell_clicked cl2 m2
      = g.is_cell_clicked cl1 m1 := by
  have hI := inv_reachable g hg
  have hI' : Inv (g.is_cell_clicked cl1 m1) := inv_click g hI cl1 hcl1 m1
  have hvc := hI.cells_ok cl1 hcl1
  have hacc := is_edge_click_accepted g.game_cells cl1 m1 g.next_turn
    g.player hvc.1 i1 hch1 hunm
  have hcells : (g.is_cell_clicked cl1 m1).game_cells
      = (update_sides g.game_cells (edgeKey (cl1.ends i1)) (cl1.ends i1)
        g.player).1 := by
    by_cases hn : (update_sides g.game_cells (edgeKey (cl1.ends i1))
        (cl1.ends i1) g.player).2 = 0
    · rw [is_cell_clicked_of_nofill g cl1 m1 _ (by rw [hacc, hn]; rfl)]
    · rw [is_cell_clicked_of_fill g cl1 m1 _ _ hn
        (by rw [hacc, if_pos hn])]
  have hmarked : cl2.sides.getD i2.val false = true := by
    rw [hcells] at hcl2
    obtain ⟨b, hb, rfl⟩ := List.mem_map.1 hcl2
    have hbe : b.ends i2 = cl1.ends i1 := by
      rw [← markCell_ends (edgeKey (cl1.ends i1)) (cl1.ends i1)
        g.player b i2]
      exact hshare
    rw [markCell_sides_getD b (cl1.ends i1) g.player
      (hI.cells_ok b hb).1 (hI.cells_ok b hb).2 i2, if_pos hbe]
  have hvc2 := hI'.cells_ok cl2 hcl2
  have hh : cl2.sides.getD
      (cl2.keys.findIdx (fun k => k == chainKey cl2 m2)) false = true := by
    rw [hch2, findIdx_keys cl2 hvc2.1 i2]
    exact hmarked
  exact is_cell_clicked_of_rejected _ cl2 m2 hI'.next_false
    (by rw [hI'.next_false]
        exact is_edge_click_of_marked _ cl2 m2 false _ hh)

/-- Witness for C6: mark the shared vertical edge of the two top cells of
a 2x2 board through the left cell, then attempt the same physical edge
through the right cell. -/
theorem C6_witness :
    u1.is_cell_clicked (u1.game_cells.getD 1 cDef) (131, 120) = u1 :=
  C6_second_mark_noop fresh2 fresh2_reach
    (fresh2.game_cells.getD 0 cDef) (130, 140) (by decide) 2 (by decide)
    (by decide) (u1.game_cells.getD 1 cDef) (131, 120) (by decide) 0
    (by decide) (by decide)

/-- C1: For every reachable in-progress state and every accepted edge
attempt (the click resolves to a not-yet-marked side), if the attempt
completes k > 0 boxes then the acting player's score, and the
completed-box count, each rise by exactly k while the turn stays with the
acting player; if it completes zero boxes the turn passes to the other
player and scores and count are unchanged. -/
theorem C1_extra_turn_rule (g : Game) (hg : Reachable g)
    (cl : Cell) (m : Pt) (hcl : cl ∈ g.game_cells) (i : Fin 4)
    (hchain : chainKey cl m = cl.keys.getD i.val 0)
    (hunmarked : cl.sides.getD i.val false = false)
    (hgo : g.gameover = false) (k : Nat)
    (hk : completeCount (g.is_cell_clicked cl m).game_cells
      = completeCount g.game_cells + k) :
    (0 < k →
      actingScore (g.is_cell_clicked cl m) = actingScore g + k ∧
      otherScore (g.is_cell_clicked cl m) = otherScore g ∧
      (g.is_cell_clicked cl m).cells_completed = g.cells_completed + k ∧
      (g.is_cell_clicked cl m).player = g.player ∧
      (g.is_cell_clicked cl m).turn = g.turn) ∧
    (k = 0 →
      (g.is_cell_clicked cl m).p1_score = g.p1_score ∧
      (g.is_cell_clicked cl m).p2_score = g.p2_score ∧
      (g.is_cell_clicked cl m).cells_completed = g.cells_completed ∧
      (g.is_cell_clicked cl m).turn = (g.turn + 1) % 2 ∧
      (g.is_cell_clicked cl m).player = otherPlayer g.player) := by
  have hI := inv_reachable g hg
  have hvc := hI.cells_ok cl hcl
  have hacc := is_edge_click_accepted g.game_cells cl m g.next_turn
    g.player hvc.1 i hchain hunmarked
  have Hnc := not_complete_of_shares_edge g.game_cells cl hcl i
    hI.cells_ok hI.agree hunmarked
  have Hcount := update_sides_count g.game_cells (cl.ends i) g.player
    (fun b hb => (hI.cells_ok b hb).1) Hnc
  have hplen : g.players.length = 2 := by
    rw [hI.players_eq]
    rfl
  by_cases hn : (update_sides g.game_cells (edgeKey (cl.ends i))
      (cl.ends i) g.player).2 = 0
  · have hgc := is_cell_clicked_of_nofill g cl m _ (by rw [hacc, hn]; rfl)
    rw [hgc] at hk ⊢
    dsimp only at hk
    rw [hn] at Hcount
    have hk0 : k = 0 := by
      rw [Hcount] at hk
      omega
    subst hk0
    constructor
    · intro hlt
      exact absurd hlt (by omega)
    · intro _
      refine ⟨rfl, rfl, rfl, ?_, ?_⟩
      · show (g.turn + 1) % g.players.length = (g.turn + 1) % 2
        rw [hplen]
      · show g.players.getD ((g.turn + 1) % g.players.length) ""
          = otherPlayer g.player
        rw [hplen, hI.player_eq, hI.players_eq]
        have ht2 : g.turn = 0 ∨ g.turn = 1 := by
          have := hI.turn_lt
          omega
        rcases ht2 with h | h <;> rw [h] <;> decide
  · have hgc := is_cell_clicked_of_fill g cl m _ _ hn
      (by rw [hacc, if_pos hn])
    rw [hgc] at hk ⊢
    dsimp only at hk
    rw [Hcount] at hk
    have hkn : k = (update_sides g.game_cells (edgeKey (cl.ends i))
        (cl.ends i) g.player).2 := by omega
    subst hkn
    constructor
    · intro _
      refine ⟨?_, ?_, rfl, rfl, rfl⟩
      · unfold actingScore
        dsimp only
        split_ifs <;> rfl
      · unfold otherScore
        dsimp only
        split_ifs <;> rfl
    · intro h0
      exact absurd h0 hn

/-- Witness for C1: the first (non-completing) click on the 1x1 board
passes the turn from X to O. -/
theorem C1_witness :
    (0 < 0 →
      actingScore w1 = actingScore fresh1 + 0 ∧
      otherScore w1 = otherScore fresh1 ∧
      w1.cells_completed = fresh1.cells_completed + 0 ∧
      w1.player = fresh1.player ∧ w1.turn = fresh1.turn) ∧
    (0 = 0 →
      w1.p1_score = fresh1.p1_score ∧
      w1.p2_score = fresh1.p2_score ∧
      w1.cells_completed = fresh1.cells_completed ∧
      w1.turn = (fresh1.turn + 1) % 2 ∧
      w1.player = otherPlayer fresh1.player) :=
  C1_extra_turn_rule fresh1 fresh1_reach
    (fresh1.game_cells.getD 0 cDef) (50, 140) (by decide) 0 (by decide)
    (by decide) (by decide) 0 (by decide)

/-- C7 counterexample: at a corner click strictly inside the cell, two
sides are within the threshold; the claim says the side at minimal
distance (TOP, distance 3) is selected, but the source's priority chain
selects LEFT (distance 5). -/
theorem C7_counterexample :
    (Cell.mk0 100 50).left ≤ 55 ∧ (55 : Int) < (Cell.mk0 100 50).right ∧
    (Cell.mk0 100 50).top ≤ 103 ∧ (103 : Int) < (Cell.mk0 100 50).bottom ∧
    sideDist (Cell.mk0 100 50) (55, 103) 1
      < sideDist (Cell.mk0 100 50) (55, 103) 0 ∧
    sideDist (Cell.mk0 100 50) (55, 103) 1 < EDGE_THRESHOLD ∧
    clickSide (Cell.mk0 100 50) (55, 103) = some 0 ∧
    specResolve (Cell.mk0 100 50) (55, 103) = some 1 := by
  decide

/-- C7 amended: the source resolves a click by the fixed priority LEFT,
RIGHT, TOP, BOTTOM over sides strictly within the threshold (regardless
of marking), then acts only on an unmarked side.  When at most one side
is within the threshold, this coincides with the spec's minimal-distance
rule: an unmarked nearest side is selected, a marked one or no side at
all gives no selection, and a rejected attempt changes no state. -/
theorem C7_resolution (cl : Cell) (hv : ValidPos cl) (m : Pt)
    (hone : ∀ i j : Fin 4, sideDist cl m i < EDGE_THRESHOLD →
      sideDist cl m j < EDGE_THRESHOLD → i = j) :
    (∀ n : Nat, clickSide cl m = some n →
       (cl.sides.getD n false = false → specResolve cl m = some n) ∧
       (cl.sides.getD n false = true → specResolve cl m = none ∧
         ∀ cells b u, is_edge_click cells cl m b u = (b, 0, cells))) ∧
    (clickSide cl m = none → specResolve cl m = none ∧
       ∀ cells b u, is_edge_click cells cl m b u = (b, 0, cells)) := by
  by_cases hz : chainKey cl m = 0
  · constructor
    · intro n hn1
      unfold clickSide at hn1
      rw [if_pos hz] at hn1
      exact absurd hn1 (by simp)
    · intro _
      have hc0 : ¬ (|m.1 - cl.left| < EDGE_THRESHOLD) := by
        intro hh
        have hzz := hz
        unfold chainKey at hzz
        rw [if_pos hh] at hzz
        exact keys_ne_zero cl hv ⟨0, by omega⟩ hzz
      have hc2 : ¬ (|m.1 - cl.right| < EDGE_THRESHOLD) := by
        intro hh
        have hzz := hz
        unfold chainKey at hzz
        rw [if_neg hc0, if_pos hh] at hzz
        exact keys_ne_zero cl hv ⟨2, by omega⟩ hzz
      have hc1 : ¬ (|m.2 - cl.top| < EDGE_THRESHOLD) := by
        intro hh
        have hzz := hz
        unfold chainKey at hzz
        rw [if_neg hc0, if_neg hc2, if_pos hh] at hzz
        exact keys_ne_zero cl hv ⟨1, by omega⟩ hzz
      have hc3 : ¬ (|m.2 - cl.bottom| < EDGE_THRESHOLD) := by
        intro hh
        have hzz := hz
        unfold chainKey at hzz
        rw [if_neg hc0, if_neg hc2, if_neg hc1, if_pos hh] at hzz
        exact keys_ne_zero cl hv ⟨3, by omega⟩ hzz
      constructor
      · obtain ⟨s, hbp, -⟩ := bestPair_char cl m
        unfold specResolve
        rw [hbp]
        dsimp only
        rw [if_neg]
        rintro ⟨hlt, -⟩
        match s, hlt with
        | ⟨0, _⟩, hlt => exact hc0 hlt
        | ⟨1, _⟩, hlt => exact hc1 hlt
        | ⟨2, _⟩, hlt => exact hc2 hlt
        | ⟨3, _⟩, hlt => exact hc3 hlt
        | ⟨nn + 4, hj⟩, hlt => exact absurd hj (by omega)
      · intro cells b u
        exact is_edge_click_of_chain_zero cells cl m b u hz
  · constructor
    · intro n hn1
      unfold clickSide at hn1
      rw [if_neg hz] at hn1
      injection hn1 with hn1
      subst hn1
      by_cases hc0 : |m.1 - cl.left| < EDGE_THRESHOLD
      · have hck : chainKey cl m = cl.left := by
          unfold chainKey
          rw [if_pos hc0]
        have hfi : cl.keys.findIdx (fun k => k == chainKey cl m) = 0 := by
          rw [hck]
          exact findIdx_keys cl hv ⟨0, by omega⟩
        have hs : sideDist cl m ⟨0, by omega⟩ < EDGE_THRESHOLD := hc0
        have hmin : ∀ j : Fin 4, j ≠ ⟨0, by omega⟩ →
            sideDist cl m ⟨0, by omega⟩ < sideDist cl m j := by
          intro j hj
          have hnj : ¬ (sideDist cl m j < EDGE_THRESHOLD) :=
            fun hh => hj (hone j ⟨0, by omega⟩ hh hs)
          omega
        have hbp := bestPair_eq_of_min cl m ⟨0, by omega⟩ hmin
        rw [hfi]
        constructor
        · intro hunm
          unfold specResolve
          rw [hbp]
          dsimp only
          rw [if_pos ⟨hs, hunm⟩]
        · intro hmkd
          refine ⟨?_, fun cells b u =>
            is_edge_click_of_marked cells cl m b u
              (by rw [hfi]; exact hmkd)⟩
          unfold specResolve
          rw [hbp]
          dsimp only
          rw [if_neg]
          rintro ⟨-, hcontr⟩
          rw [hmkd] at hcontr
          exact absurd hcontr (by simp)
      · by_cases hc2 : |m.1 - cl.right| < EDGE_THRESHOLD
        · have hck : chainKey cl m = cl.right := by
            unfold chainKey
            rw [if_neg hc0, if_pos hc2]
          have hfi : cl.keys.findIdx (fun k => k == chainKey cl m)
              = 2 := by
            rw [hck]
            exact findIdx_keys cl hv ⟨2, by omega⟩
          have hs : sideDist cl m ⟨2, by omega⟩ < EDGE_THRESHOLD := hc2
          have hmin : ∀ j : Fin 4, j ≠ ⟨2, by omega⟩ →
              sideDist cl m ⟨2, by omega⟩ < sideDist cl m j := by
            intro j hj
            have hnj : ¬ (sideDist cl m j < EDGE_THRESHOLD) :=
              fun hh => hj (hone j ⟨2, by omega⟩ hh hs)
            omega
          have hbp := bestPair_eq_of_min cl m ⟨2, by omega⟩ hmin
          rw [hfi]
          constructor
          · intro hunm
            unfold specResolve
            rw [hbp]
            dsimp only
            rw [if_pos ⟨hs, hunm⟩]
          · intro hmkd
            refine ⟨?_, fun cells b u =>
              is_edge_click_of_marked cells cl m b u
                (by rw [hfi]; exact hmkd)⟩
            unfold specResolve
            rw [hbp]
            dsimp only
            rw [if_neg]
            rintro ⟨-, hcontr⟩
            rw [hmkd] at hcontr
            exact absurd hcontr (by simp)
        · by_cases hc1 : |m.2 - cl.top| < EDGE_THRESHOLD
          · have hck : chainKey cl m = cl.top := by
              unfold chainKey
              rw [if_neg hc0, if_neg hc2, if_pos hc1]
            have hfi : cl.keys.findIdx (fun k => k == chainKey cl m)
                = 1 := by
              rw [hck]
              exact findIdx_keys cl hv ⟨1, by omega⟩
            have hs : sideDist cl m ⟨1, by omega⟩ < EDGE_THRESHOLD := hc1
            have hmin : ∀ j : Fin 4, j ≠ ⟨1, by omega⟩ →
                sideDist cl m ⟨1, by omega⟩ < sideDist cl m j := by
              intro j hj
              have hnj : ¬ (sideDist cl m j < EDGE_THRESHOLD) :=
                fun hh => hj (hone j ⟨1, by omega⟩ hh hs)
              omega
            have hbp := bestPair_eq_of_min cl m ⟨1, by omega⟩ hmin
            rw [hfi]
            constructor
            · intro hunm
              unfold specResolve
              rw [hbp]
              dsimp only
              rw [if_pos ⟨hs, hunm⟩]
            · intro hmkd
              refine ⟨?_, fun cells b u =>
                is_edge_click_of_marked cells cl m b u
                  (by rw [hfi]; exact hmkd)⟩
              unfold specResolve
              rw [hbp]
              dsimp only
              rw [if_neg]
              rintro ⟨-, hcontr⟩
              rw [hmkd] at hcontr
              exact absurd hcontr (by simp)
          · by_cases hc3 : |m.2 - cl.bottom| < EDGE_THRESHOLD
            · have hck : chainKey cl m = cl.bottom := by
                unfold chainKey
                rw [if_neg hc0, if_neg hc2, if_neg hc1, if_pos hc3]
              have hfi : cl.keys.findIdx (fun k => k == chainKey cl m)
                  = 3 := by
                rw [hck]
                exact findIdx_keys cl hv ⟨3, by omega⟩
              have hs : sideDist cl m ⟨3, by omega⟩ < EDGE_THRESHOLD := hc3
              have hmin : ∀ j : Fin 4, j ≠ ⟨3, by omega⟩ →
                  sideDist cl m ⟨3, by omega⟩ < sideDist cl m j := by
                intro j hj
                have hnj : ¬ (sideDist cl m j < EDGE_THRESHOLD) :=
                  fun hh => hj (hone j ⟨3, by omega⟩ hh hs)
                omega
              have hbp := bestPair_eq_of_min cl m ⟨3, by omega⟩ hmin
              rw [hfi]
              constructor
              · intro hunm
                unfold specResolve
                rw [hbp]
                dsimp only
                rw [if_pos ⟨hs, hunm⟩]
              · intro hmkd
                refine ⟨?_, fun cells b u =>
                  is_edge_click_of_marked cells cl m b u
                    (by rw [hfi]; exact hmkd)⟩
                unfold specResolve
                rw [hbp]
                dsimp only
                rw [if_neg]
                rintro ⟨-, hcontr⟩
                rw [hmkd] at hcontr
                exact absurd hcontr (by simp)
            · exfalso
              apply hz
              unfold chainKey
              rw [if_neg hc0, if_neg hc2, if_neg hc1, if_neg hc3]
    · intro hnone
      unfold clickSide at hnone
      rw [if_neg hz] at hnone
      exact absurd hnone (by simp)

/-- Witness for C7: a click at distance 0 of the left side only. -/
theorem C7_witness :
    (∀ n : Nat, clickSide (Cell.mk0 100 50) (50, 140) = some n →
       ((Cell.mk0 100 50).sides.getD n false = false →
         specResolve (Cell.mk0 100 50) (50, 140) = some n) ∧
       ((Cell.mk0 100 50).sides.getD n false = true →
         specResolve (Cell.mk0 100 50) (50, 140) = none ∧
         ∀ cells b u, is_edge_click cells (Cell.mk0 100 50) (50, 140) b u
           = (b, 0, cells))) ∧
    (clickSide (Cell.mk0 100 50) (50, 140) = none →
       specResolve (Cell.mk0 100 50) (50, 140) = none ∧
       ∀ cells b u, is_edge_click cells (Cell.mk0 100 50) (50, 140) b u
         = (b, 0, cells)) :=
  C7_resolution (Cell.mk0 100 50) ⟨⟨0, rfl⟩, ⟨0, rfl⟩⟩ (50, 140)
    (by decide)

end DotsBoxes
